import Mathlib

/-!
# Scroll carousel controller (`script.js`, `initScrollCarousel`)

A shallow embedding of the carousel controller of `script.js`.

Numbers.  Layout values read from the page (`offsetLeft`, `offsetWidth`,
`scrollLeft`, the resolved left padding) are finite; they are embedded as
rationals holding the value of the double.  Results that can leave the finite
numbers are embedded over `JSNum`, the finite numbers extended with `Infinity`,
`-Infinity` and `NaN`.

The arithmetic of the two inference branches is embedded twice.

* The definitions of the first part (`closestLoop`, `centerIndex`, `cardWidth`,
  `roundedStep`, `activeIndex`, `stepTarget`) evaluate sums, differences and
  quotients exactly.  They describe the code wherever rounding does not
  change the outcome, in particular wherever every intermediate result is
  itself a double (sums, differences and halves of integers of magnitude below
  `2 ^ 53` are).
* The namespace `Binary64` evaluates the same expressions of lines 46-54 and
  70-78 with every operation rounded to the nearest double (`Binary64.ofReal`),
  as the code does for every input.
-/

namespace ScrollCarousel

/-! ## JavaScript numbers -/

/-- A JavaScript number: a finite value, `Infinity`, `-Infinity` or `NaN`. -/
inductive JSNum where
  | fin (q : ℚ)
  | posInf
  | negInf
  | nan
  deriving DecidableEq

namespace JSNum

/-- The quotient `a / b` of two finite numbers.  A zero divisor is `+0` in the
controller (it is a difference of equal numbers, or a sum with a non-zero
constant), so `a / 0` is `Infinity`, `-Infinity` or `NaN` by the sign of `a`. -/
def div (a b : ℚ) : JSNum :=
  if b = 0 then
    if 0 < a then posInf else if a < 0 then negInf else nan
  else fin (a / b)

/-- The function `Math.round`: the nearest integer, halves rounded towards `+Infinity`;
the non-finite values are returned unchanged. -/
def round : JSNum → JSNum
  | fin q => fin ((⌊q + 1 / 2⌋ : ℤ) : ℚ)
  | posInf => posInf
  | negInf => negInf
  | nan => nan

/-- The function `Math.min` on two numbers: `NaN` if either is `NaN`. -/
def min : JSNum → JSNum → JSNum
  | nan, _ => nan
  | _, nan => nan
  | negInf, _ => negInf
  | _, negInf => negInf
  | posInf, b => b
  | a, posInf => a
  | fin a, fin b => fin (if a ≤ b then a else b)

/-- The function `Math.max` on two numbers: `NaN` if either is `NaN`. -/
def max : JSNum → JSNum → JSNum
  | nan, _ => nan
  | _, nan => nan
  | posInf, _ => posInf
  | _, posInf => posInf
  | negInf, b => b
  | a, negInf => a
  | fin a, fin b => fin (if a ≤ b then b else a)

/-- The sum `x + d` of a number and a finite number `d`. -/
def addFin : JSNum → ℚ → JSNum
  | fin q, d => fin (q + d)
  | posInf, _ => posInf
  | negInf, _ => negInf
  | nan, _ => nan

/-- The comparison `a < b`; false whenever an operand is `NaN`. -/
def lt : JSNum → JSNum → Bool
  | nan, _ => false
  | _, nan => false
  | fin a, fin b => decide (a < b)
  | fin _, posInf => true
  | fin _, negInf => false
  | posInf, _ => false
  | negInf, negInf => false
  | negInf, _ => true

/-- The number is a valid index of a collection of `n` elements: an integer
`k` with `0 ≤ k ≤ n - 1`. -/
def InRange (x : JSNum) (n : Nat) : Prop :=
  ∃ k : Nat, k < n ∧ x = fin (k : ℚ)

end JSNum

/-! ## Page elements -/

/-- A carousel item as the controller sees it: its live layout
(`offsetLeft`, `offsetWidth`) and whether its class list holds `active`. -/
structure Card where
  offsetLeft : ℚ
  offsetWidth : ℚ
  active : Bool
  deriving DecidableEq

/-- An indicator dot: its class name, its `data-index` attribute and whether
its class list holds `active`. -/
structure Dot where
  cls : String
  dataIndex : Nat
  active : Bool
  deriving DecidableEq

/-- The constants an `initScrollCarousel` call fixes for its closures. -/
structure Env where
  hasDots : Bool
  gap : ℚ
  isCenterAligned : Bool
  containerPaddingLeft : ℚ

/-- The live page state the closures of one carousel read and write: the
scroll container (`scrollLeft`, `offsetWidth`), the `cards` node list and the
children of the dots container. -/
structure Dom where
  scrollLeft : ℚ
  offsetWidth : ℚ
  cards : List Card
  dots : List Dot

/-- The lookup `cards[index]` for a number `index`: the element when `index` is a
non-negative integer below the length, `undefined` (`none`) otherwise. -/
def cardAt (cards : List Card) : JSNum → Option Card
  | JSNum.fin q => if q.den = 1 ∧ 0 ≤ q.num then cards.get? q.num.toNat else none
  | _ => none

/-! ## Active-index inference -/

/-- The `cards.forEach` loop of the center-aligned branch, started at `index`
with the loop variables `(closestDistance, activeIndex)`. -/
def closestLoop (viewportCenter : ℚ) :
    List Card → Nat → JSNum × Nat → JSNum × Nat
  | [], _, st => st
  | card :: rest, index, (closestDistance, activeIndex) =>
    let cardCenter := card.offsetLeft + card.offsetWidth / 2
    let distance := |cardCenter - viewportCenter|
    if JSNum.lt (JSNum.fin distance) closestDistance then
      closestLoop viewportCenter rest (index + 1) (JSNum.fin distance, index)
    else
      closestLoop viewportCenter rest (index + 1) (closestDistance, activeIndex)

/-- The index the center-aligned branch leaves in its index variable (shared
by `updateActiveState` and the exported step function, lines 46-61 and
161-170). -/
def centerIndex (scrollLeft containerWidth : ℚ) (cards : List Card) : Nat :=
  let viewportCenter := scrollLeft + containerWidth / 2
  (closestLoop viewportCenter cards 0 (JSNum.posInf, 0)).2

/-- The step width `cardWidth` of the start-aligned branch. -/
def cardWidth (gap : ℚ) : List Card → ℚ
  | c0 :: c1 :: _ => c1.offsetLeft - c0.offsetLeft
  | [c0] => c0.offsetWidth + gap
  | [] => 0

/-- The value `Math.round(adjustedScrollLeft / cardWidth)` of the
start-aligned branch. -/
def roundedStep (e : Env) (d : Dom) : JSNum :=
  let adjustedScrollLeft := d.scrollLeft + e.containerPaddingLeft
  JSNum.round (JSNum.div adjustedScrollLeft (cardWidth e.gap d.cards))

/-- The value of `activeIndex` after the branch of `updateActiveState`
(lines 39-79); `none` is the early `return` of line 66. -/
def activeIndex (e : Env) (d : Dom) : Option JSNum :=
  if e.isCenterAligned then
    some (JSNum.fin (centerIndex d.scrollLeft d.offsetWidth d.cards : ℚ))
  else
    match d.cards with
    | [] => none
    | _ :: _ =>
      let activeIndex := roundedStep e d
      some (JSNum.max (JSNum.fin 0)
        (JSNum.min activeIndex (JSNum.fin ((d.cards.length : ℚ) - 1))))

/-! ## Rendering the active state -/

/-- The loop `cards.forEach((card, index) => card.classList.toggle('active',
index === activeIndex))`, started at `index`. -/
def toggleCards (activeIndex : JSNum) : Nat → List Card → List Card
  | _, [] => []
  | index, card :: rest =>
    { card with active := decide (JSNum.fin (index : ℚ) = activeIndex) } ::
      toggleCards activeIndex (index + 1) rest

/-- The loop over `dotsContainer.querySelectorAll('.dot, .carousel-dot')`:
`dots.forEach((dot, index) => dot.classList.toggle('active', index ===
activeIndex))`, started at `index`; children of the dots container that match
neither class are not in the node list and keep their state. -/
def toggleDots (activeIndex : JSNum) : Nat → List Dot → List Dot
  | _, [] => []
  | index, dot :: rest =>
    if dot.cls = "dot" ∨ dot.cls = "carousel-dot" then
      { dot with active := decide (JSNum.fin (index : ℚ) = activeIndex) } ::
        toggleDots activeIndex (index + 1) rest
    else
      dot :: toggleDots activeIndex index rest

/-- The closure `updateActiveState` (lines 38-94): infer the active index, then toggle the
`active` class on every card and, when `hasDots`, on every dot. -/
def updateActiveState (e : Env) (d : Dom) : Dom :=
  match activeIndex e d with
  | none => d
  | some a =>
    { d with
      cards := toggleCards a 0 d.cards
      dots := if e.hasDots then toggleDots a 0 d.dots else d.dots }

/-! ## Programmatic navigation -/

/-- The closure `scrollToCard(index)` (lines 97-118): the `left` offset handed to
`container.scrollTo`, or `none` for the early `return` when `cards[index]` is
`undefined`. -/
def scrollToCard (e : Env) (d : Dom) (index : JSNum) : Option ℚ :=
  match cardAt d.cards index with
  | none => none
  | some targetCard =>
    if e.isCenterAligned then
      some (targetCard.offsetLeft - (d.offsetWidth - targetCard.offsetWidth) / 2)
    else
      some (targetCard.offsetLeft - e.containerPaddingLeft)

/-- The variable `cardWidth` of the exported step function (lines 156 and
173-176): the default `cards[0].offsetWidth + gap`, replaced by the measured
distance when there is more than one card. -/
def stepCardWidth (gap : ℚ) : List Card → ℚ
  | [] => 0
  | c0 :: rest =>
    let cardWidth := c0.offsetWidth + gap
    match rest with
    | c1 :: _ => c1.offsetLeft - c0.offsetLeft
    | [] => cardWidth

/-- The exported function `window["scroll" + containerId]` (lines 150-186) up
to its last statement: the value of `targetIndex` passed to `scrollToCard`, or
`none` for the early `return` of line 151. -/
def stepTarget (e : Env) (d : Dom) (direction : ℤ) : Option JSNum :=
  if d.cards.length = 0 then none
  else
    let targetIndex :=
      if e.isCenterAligned then
        JSNum.fin (centerIndex d.scrollLeft d.offsetWidth d.cards : ℚ)
      else
        let adjustedScrollLeft := d.scrollLeft + e.containerPaddingLeft
        JSNum.round (JSNum.div adjustedScrollLeft (stepCardWidth e.gap d.cards))
    let targetIndex := JSNum.addFin targetIndex (direction : ℚ)
    some (JSNum.max (JSNum.fin 0)
      (JSNum.min targetIndex (JSNum.fin ((d.cards.length : ℚ) - 1))))

/-- The exported step function as a whole: the `left` offset it makes the
container scroll to, or `none` when it returns without scrolling. -/
def exportedStep (e : Env) (d : Dom) (direction : ℤ) : Option ℚ :=
  match stepTarget e d direction with
  | none => none
  | some targetIndex => scrollToCard e d targetIndex

/-! ## Construction -/

/-- What the controller reads of a scroll container element: its scroll
offset, its width, the number `parseFloat` reads from its resolved
`padding-left`, and the elements of the node list
`querySelectorAll(cardSelector)` returns at line 12.  The node list is static:
the page model has no operation that adds or removes a card, so the list a
closure captured at construction and the list found on the page later hold the
same elements, whose layout and classes are live. -/
structure Container where
  scrollLeft : ℚ
  offsetWidth : ℚ
  paddingLeft : ℚ
  cards : List Card

/-- What the handlers and the exported function of one `initScrollCarousel`
call close over. -/
structure Closure where
  containerId : String
  dotsContainerId : String
  env : Env

/-- The page: the elements `document.getElementById` finds (scroll containers
and dots containers, the latter as their list of children), the console
output, the handlers attached so far and the functions assigned to properties
of `window`. -/
structure Page where
  containers : String → Option Container
  dotsContainers : String → Option (List Dot)
  console : List String
  scrollListeners : List Closure
  resizeListeners : List Closure
  window : List (String × Closure)

/-- The dots appended by the loop of lines 127-133 for the cards from `index`
on: class `dotClass`, `data-index` the card's index, not active. -/
def makeDots (dotClass : String) : Nat → List Card → List Dot
  | _, [] => []
  | index, _ :: rest => ⟨dotClass, index, false⟩ :: makeDots dotClass (index + 1) rest

/-- A call of the closure `updateActiveState` on the page: the live state of
the container and of the dots container is read, updated and written back. -/
def Closure.updateActiveState (k : Closure) (p : Page) : Page :=
  match p.containers k.containerId with
  | none => p
  | some c =>
    let dots := (p.dotsContainers k.dotsContainerId).getD []
    let d := ScrollCarousel.updateActiveState k.env ⟨c.scrollLeft, c.offsetWidth, c.cards, dots⟩
    { p with
      containers := Function.update p.containers k.containerId (some { c with cards := d.cards })
      dotsContainers :=
        if k.env.hasDots then Function.update p.dotsContainers k.dotsContainerId (some d.dots)
        else p.dotsContainers }

/-- The assignment `window[name] = f`. -/
def setProperty (name : String) (f : Closure) :
    List (String × Closure) → List (String × Closure)
  | [] => [(name, f)]
  | (n, g) :: rest =>
    if n = name then (name, f) :: rest else (n, g) :: setProperty name f rest

/-- The function `initScrollCarousel(containerId, dotsContainerId, cardSelector)`
(lines 8-190). -/
def initScrollCarousel (containerId dotsContainerId cardSelector : String) (p : Page) : Page :=
  let container := p.containers containerId
  let dotsContainer := p.dotsContainers dotsContainerId
  let cards := match container with
    | some c => c.cards
    | none => []
  match container with
  | none =>
    { p with console := p.console ++
        ["Carousel initialization skipped for #" ++ containerId ++
          ": Element ou cartes non trouvées."] }
  | some c =>
    if cards.length = 0 then
      { p with console := p.console ++
          ["Carousel initialization skipped for #" ++ containerId ++
            ": Element ou cartes non trouvées."] }
    else
      let hasDots := dotsContainer.isSome && decide (cards.length > 1)
      let gap : ℚ := if cardSelector = ".service-card-h" then 32 else 20
      let isCenterAligned := decide (containerId = "testimonials-scroll")
      let containerPaddingLeft := c.paddingLeft
      let k : Closure :=
        ⟨containerId, dotsContainerId, ⟨hasDots, gap, isCenterAligned, containerPaddingLeft⟩⟩
      let p :=
        if hasDots then
          let dotClass := if cardSelector = ".service-card-h" then "carousel-dot" else "dot"
          { p with dotsContainers :=
              Function.update p.dotsContainers dotsContainerId (some (makeDots dotClass 0 cards)) }
        else p
      let p := { p with scrollListeners := p.scrollListeners ++ [k] }
      let p := k.updateActiveState p
      let p := { p with resizeListeners := p.resizeListeners ++ [k] }
      { p with window := setProperty ("scroll" ++ containerId) k p.window }

/-- The outcome of a call from outside the controller. -/
inductive CallResult where
  | typeError
  | returned (scrollTo : Option ℚ)
  deriving DecidableEq

/-- The call `window["scroll" + containerId](direction)` of an arrow control:
a `TypeError` when the property was never assigned (calling `undefined`),
otherwise the exported step function run on the live page, returning the
offset it scrolls to, if any. -/
def callStep (p : Page) (containerId : String) (direction : ℤ) : CallResult :=
  match p.window.lookup ("scroll" ++ containerId) with
  | none => CallResult.typeError
  | some k =>
    match p.containers k.containerId with
    | none => CallResult.returned none
    | some c =>
      let dots := (p.dotsContainers k.dotsContainerId).getD []
      CallResult.returned
        (exportedStep k.env ⟨c.scrollLeft, c.offsetWidth, c.cards, dots⟩ direction)

/-! ## The debounced scroll listener -/

/-- A pending timeout of the host: its handle and the time (ms) it is due. -/
structure Timer where
  id : Nat
  due : Nat
  deriving DecidableEq

/-- One carousel's scroll listener together with the host state it acts on:
the clock `now` (ms), the closure variable `isScrolling` (`none` is
`undefined`), the host's pending timeouts, its next timer handle, and a log of
the runs of `updateActiveState` started by a timeout (time and `scrollLeft`
read). -/
structure Controller where
  env : Env
  dom : Dom
  now : Nat
  isScrolling : Option Nat
  timers : List Timer
  nextId : Nat
  updates : List (Nat × ℚ)

/-- The host function `window.clearTimeout(handle)`: the timeout with that handle, if any, is
removed; `undefined` removes nothing. -/
def clearTimeout (handle : Option Nat) (timers : List Timer) : List Timer :=
  match handle with
  | none => timers
  | some i => timers.filter (fun t => decide (t.id ≠ i))

/-- The body of the scroll listener (lines 138-142): cancel the pending
timeout and schedule `updateActiveState` 50 ms from now. -/
def Controller.onScroll (s : Controller) : Controller :=
  let timers := clearTimeout s.isScrolling s.timers
  { s with
    timers := timers ++ [⟨s.nextId, s.now + 50⟩]
    isScrolling := some s.nextId
    nextId := s.nextId + 1 }

/-- A timeout fires at the time it is due: `updateActiveState()` runs on the
live page state. -/
def Controller.fire (s : Controller) (t : Timer) : Controller :=
  { s with
    now := t.due
    dom := updateActiveState s.env s.dom
    updates := s.updates ++ [(t.due, s.dom.scrollLeft)] }

/-- The host lets time pass until `time`: every pending timeout due by then
fires, in the order scheduled. -/
def Controller.advance (time : Nat) (s : Controller) : Controller :=
  let due := s.timers.filter (fun t => decide (t.due ≤ time))
  let s := { s with timers := s.timers.filter (fun t => decide (¬ t.due ≤ time)) }
  let s := due.foldl Controller.fire s
  { s with now := time }

/-- A scroll event at `time` that leaves the container at `scrollLeft`: time
passes until then, the offset changes, the listener runs. -/
def Controller.scrollEvent (s : Controller) (ev : Nat × ℚ) : Controller :=
  let s := s.advance ev.1
  Controller.onScroll { s with dom := { s.dom with scrollLeft := ev.2 } }

/-- A sequence of scroll events, oldest first. -/
def Controller.scrollEvents (s : Controller) (evs : List (Nat × ℚ)) : Controller :=
  evs.foldl Controller.scrollEvent s

/-! ## Specification-side definitions and example inputs -/

/-- The distance between a card's center and the viewport center. -/
def centerDistance (scrollLeft containerWidth : ℚ) (c : Card) : ℚ :=
  |(c.offsetLeft + c.offsetWidth / 2) - (scrollLeft + containerWidth / 2)|

/-- Loop invariant of `closestLoop` after the first `i` cards: nothing chosen
yet, or the chosen index is the first minimiser among the first `i` cards. -/
def ClosestInv (vc : ℚ) (cards : List Card) (i : Nat) (st : JSNum × Nat) : Prop :=
  (i = 0 ∧ st = (JSNum.posInf, 0)) ∨
  (∃ ca, cards[st.2]? = some ca ∧ st.2 < i ∧
    st.1 = JSNum.fin |ca.offsetLeft + ca.offsetWidth / 2 - vc| ∧
    (∀ j c, j < i → cards[j]? = some c →
      |ca.offsetLeft + ca.offsetWidth / 2 - vc| ≤ |c.offsetLeft + c.offsetWidth / 2 - vc|) ∧
    (∀ j c, j < st.2 → cards[j]? = some c →
      |ca.offsetLeft + ca.offsetWidth / 2 - vc| < |c.offsetLeft + c.offsetWidth / 2 - vc|))

/-- A center-aligned carousel of two cards of width 100 at 0 and 200 in a
container of width 300 scrolled to 0: both centers are 100 away from the
viewport center. -/
def tieEnv : Env := ⟨false, 20, true, 0⟩

/-- The page state of the tie example. -/
def tieDom : Dom := ⟨0, 300, [⟨0, 100, false⟩, ⟨200, 100, false⟩], []⟩

/-- A center-aligned carousel of three cards of widths 100, 140 and 100 laid
out left to right with gaps of 20, in a container of width 300. -/
def seekEnv : Env := ⟨true, 20, true, 0⟩

/-- The page state of the center-aligned seek example. -/
def seekDom : Dom :=
  ⟨0, 300, [⟨0, 100, false⟩, ⟨120, 140, false⟩, ⟨280, 100, false⟩], []⟩

/-- The step width in the words of the specification: the distance between the
positions of item 1 and item 0 when at least two items exist, otherwise the
first item's width plus the configured gap. -/
def specStepWidth (gap : ℚ) (cards : List Card) : ℚ :=
  if h : 2 ≤ cards.length then
    (cards[1]).offsetLeft - (cards[0]).offsetLeft
  else
    match cards.head? with
    | some firstItem => firstItem.offsetWidth + gap
    | none => 0

/-- The start-aligned carousel of the specification's example: two cards at
`offsetLeft` 0 and 352, left padding 0. -/
def stepEnv : Env := ⟨true, 32, false, 0⟩

/-- The page state of the example at scroll offset `x`. -/
def stepDom (x : ℚ) : Dom := ⟨x, 300, [⟨0, 320, false⟩, ⟨352, 320, false⟩], []⟩

/-- A start-aligned carousel with left padding 60 whose three cards of width
80 sit at 60, 160 and 260 (step 100). -/
def paddedEnv : Env := ⟨true, 20, false, 60⟩

/-- The page state of the padded example at scroll offset `x`. -/
def paddedDom (x : ℚ) : Dom :=
  ⟨x, 400, [⟨60, 80, false⟩, ⟨160, 80, false⟩, ⟨260, 80, false⟩], []⟩

/-- A start-aligned carousel without left padding whose two cards both sit at
`offsetLeft` 0 (stacked in a column, or not displayed), not scrolled. -/
def stackedEnv : Env := ⟨true, 20, false, 0⟩

/-- The page state of the stacked example. -/
def stackedDom : Dom := ⟨0, 300, [⟨0, 80, false⟩, ⟨0, 80, false⟩], []⟩

/-- A start-aligned carousel without left padding: a card of width 80 at 0 and
a card of width 500 at 100 in a container of width 200, scrolled to 300. -/
def wideEnv : Env := ⟨true, 20, false, 0⟩

/-- The page state of the wide-card example. -/
def wideDom : Dom := ⟨300, 200, [⟨0, 80, false⟩, ⟨100, 500, false⟩], []⟩

/-- The state right after the listener handled an event at time `t` that left
the offset `x`: exactly one timeout is pending, due at `t + 50`, and no
timeout has fired since the state `s0`. -/
def Settling (s0 s : Controller) (t : Nat) (x : ℚ) : Prop :=
  s.env = s0.env ∧ s.dom = { s0.dom with scrollLeft := x } ∧ s.now = t ∧
  (∃ id, s.isScrolling = some id ∧ s.timers = [⟨id, t + 50⟩]) ∧
  s.updates = s0.updates

/-- An idle controller for the two-card example, scroll offset 0. -/
def idleController : Controller :=
  { env := stepEnv, dom := stepDom 0, now := 0, isScrolling := none, timers := [],
    nextId := 0, updates := [] }

/-- A page whose services carousel has two cards stacked at `offsetLeft` 0
(the first one marked active in the markup), no left padding, and an empty
dots container. -/
def stackedPage : Page :=
  { containers := fun id =>
      if id = "services-scroll" then some ⟨0, 300, 0, [⟨0, 80, true⟩, ⟨0, 80, false⟩]⟩ else none
    dotsContainers := fun id => if id = "carousel-dots" then some [] else none
    console := []
    scrollListeners := []
    resizeListeners := []
    window := [] }

/-- A page on which the services carousel is present and the partners
container is absent. -/
def noPartnersPage : Page :=
  { containers := fun id =>
      if id = "services-scroll" then some ⟨0, 300, 0, [⟨0, 320, false⟩, ⟨352, 320, false⟩]⟩
      else none
    dotsContainers := fun id => if id = "carousel-dots" then some [] else none
    console := []
    scrollListeners := []
    resizeListeners := []
    window := [] }

/-! ## Double-precision arithmetic -/

/-- The integer nearest to `q`, ties to the even one. -/
def roundHalfEven (q : ℚ) : ℤ :=
  if q - ⌊q⌋ < 1 / 2 then ⌊q⌋
  else if 1 / 2 < q - ⌊q⌋ then ⌊q⌋ + 1
  else if ⌊q⌋ % 2 = 0 then ⌊q⌋
  else ⌊q⌋ + 1

namespace Binary64

/-- The double (IEEE 754 binary64) nearest to the real number `q`: 53-bit
significand, round to nearest with ties to even, gradual underflow below
`2 ^ (-1022)`, and `Infinity` or `-Infinity` once the rounded magnitude reaches
`2 ^ 1024`.  The two zeros are not distinguished. -/
def ofReal (q : ℚ) : JSNum :=
  if q = 0 then JSNum.fin 0
  else
    let e : ℤ := max (Int.log 2 |q|) (-1022)
    let ulp : ℚ := 2 ^ (e - 52)
    let r : ℚ := (roundHalfEven (q / ulp) : ℚ) * ulp
    if (2 : ℚ) ^ (1024 : ℤ) ≤ |r| then
      if 0 < q then JSNum.posInf else JSNum.negInf
    else JSNum.fin r

/-- The sum `a + b` in double arithmetic. -/
def add : JSNum → JSNum → JSNum
  | JSNum.nan, _ => JSNum.nan
  | _, JSNum.nan => JSNum.nan
  | JSNum.posInf, JSNum.negInf => JSNum.nan
  | JSNum.negInf, JSNum.posInf => JSNum.nan
  | JSNum.posInf, _ => JSNum.posInf
  | _, JSNum.posInf => JSNum.posInf
  | JSNum.negInf, _ => JSNum.negInf
  | _, JSNum.negInf => JSNum.negInf
  | JSNum.fin a, JSNum.fin b => ofReal (a + b)

/-- The difference `a - b` in double arithmetic. -/
def sub : JSNum → JSNum → JSNum
  | JSNum.nan, _ => JSNum.nan
  | _, JSNum.nan => JSNum.nan
  | JSNum.posInf, JSNum.posInf => JSNum.nan
  | JSNum.negInf, JSNum.negInf => JSNum.nan
  | JSNum.posInf, _ => JSNum.posInf
  | _, JSNum.negInf => JSNum.posInf
  | JSNum.negInf, _ => JSNum.negInf
  | _, JSNum.posInf => JSNum.negInf
  | JSNum.fin a, JSNum.fin b => ofReal (a - b)

/-- The quotient `a / b` in double arithmetic.  A zero divisor is `+0` in the
controller (see `JSNum.div`). -/
def div : JSNum → JSNum → JSNum
  | JSNum.nan, _ => JSNum.nan
  | _, JSNum.nan => JSNum.nan
  | JSNum.fin a, JSNum.fin b =>
    if b = 0 then
      if 0 < a then JSNum.posInf else if a < 0 then JSNum.negInf else JSNum.nan
    else ofReal (a / b)
  | JSNum.fin _, _ => JSNum.fin 0
  | JSNum.posInf, JSNum.fin b => if 0 ≤ b then JSNum.posInf else JSNum.negInf
  | JSNum.negInf, JSNum.fin b => if 0 ≤ b then JSNum.negInf else JSNum.posInf
  | _, _ => JSNum.nan

/-- The function `Math.abs`. -/
def abs : JSNum → JSNum
  | JSNum.fin a => JSNum.fin |a|
  | JSNum.posInf => JSNum.posInf
  | JSNum.negInf => JSNum.posInf
  | JSNum.nan => JSNum.nan

/-- The distance `Math.abs(cardCenter - viewportCenter)` of lines 51-54 as the
code computes it, every operation rounded to a double. -/
def distance (viewportCenter : JSNum) (card : Card) : JSNum :=
  let cardCenter := add (JSNum.fin card.offsetLeft)
    (div (JSNum.fin card.offsetWidth) (JSNum.fin 2))
  abs (sub cardCenter viewportCenter)

/-- The `cards.forEach` loop of the center-aligned branch in double arithmetic,
started at `index` with the loop variables `(closestDistance, activeIndex)`. -/
def closestLoop (viewportCenter : JSNum) :
    List Card → Nat → JSNum × Nat → JSNum × Nat
  | [], _, st => st
  | card :: rest, index, (closestDistance, activeIndex) =>
    let distance := distance viewportCenter card
    if JSNum.lt distance closestDistance then
      closestLoop viewportCenter rest (index + 1) (distance, index)
    else
      closestLoop viewportCenter rest (index + 1) (closestDistance, activeIndex)

/-- The value `scrollLeft + container.offsetWidth / 2` of line 46 in double
arithmetic. -/
def viewportCenter (scrollLeft containerWidth : ℚ) : JSNum :=
  add (JSNum.fin scrollLeft) (div (JSNum.fin containerWidth) (JSNum.fin 2))

/-- The index the center-aligned branch (lines 46-61) leaves in `activeIndex`,
in double arithmetic. -/
def centerIndex (scrollLeft containerWidth : ℚ) (cards : List Card) : Nat :=
  (closestLoop (viewportCenter scrollLeft containerWidth) cards 0 (JSNum.posInf, 0)).2

/-- The step width `cardWidth` of line 70 in double arithmetic. -/
def cardWidth (gap : ℚ) : List Card → JSNum
  | c0 :: c1 :: _ => sub (JSNum.fin c1.offsetLeft) (JSNum.fin c0.offsetLeft)
  | [c0] => add (JSNum.fin c0.offsetWidth) (JSNum.fin gap)
  | [] => JSNum.fin 0

/-- The value `Math.round(adjustedScrollLeft / cardWidth)` of lines 75-76 in
double arithmetic. -/
def roundedStep (e : Env) (d : Dom) : JSNum :=
  let adjustedScrollLeft := add (JSNum.fin d.scrollLeft) (JSNum.fin e.containerPaddingLeft)
  JSNum.round (div adjustedScrollLeft (cardWidth e.gap d.cards))

/-- The value of `activeIndex` after the branch of `updateActiveState`
(lines 39-79) in double arithmetic; `none` is the early `return` of line 66. -/
def activeIndex (e : Env) (d : Dom) : Option JSNum :=
  if e.isCenterAligned then
    some (JSNum.fin (centerIndex d.scrollLeft d.offsetWidth d.cards : ℚ))
  else
    match d.cards with
    | [] => none
    | _ :: _ =>
      let activeIndex := roundedStep e d
      some (JSNum.max (JSNum.fin 0)
        (JSNum.min activeIndex (JSNum.fin ((d.cards.length : ℚ) - 1))))

end Binary64

/-- Loop invariant of `Binary64.closestLoop` after the first `i` cards: either
no card so far had a distance below `Infinity` and the variables are
untouched, or the chosen card is the first one none of the first `i` cards
beats. -/
def Binary64.ClosestInv (vc : JSNum) (cards : List Card) (i : Nat) (st : JSNum × Nat) : Prop :=
  (st = (JSNum.posInf, 0) ∧
    ∀ (j : Nat) (c : Card), j < i → cards[j]? = some c →
      JSNum.lt (Binary64.distance vc c) JSNum.posInf = false) ∨
  (∃ ca : Card, cards[st.2]? = some ca ∧ st.2 < i ∧ st.1 = Binary64.distance vc ca ∧
    JSNum.lt st.1 JSNum.posInf = true ∧
    (∀ (j : Nat) (c : Card), j < i → cards[j]? = some c →
      JSNum.lt (Binary64.distance vc c) st.1 = false) ∧
    (∀ (j : Nat) (c : Card), j < st.2 → cards[j]? = some c →
      Binary64.distance vc c ≠ st.1))

/-- A center-aligned carousel of two cards of width 200 at 0 and 200 in a
container of width 300, scrolled to `50 + 2 ^ (-47)`. -/
def roundingEnv : Env := ⟨false, 20, true, 0⟩

/-- The page state of the rounding example. -/
def roundingDom : Dom :=
  ⟨50 + 1 / 140737488355328, 300, [⟨0, 200, false⟩, ⟨200, 200, false⟩], []⟩

/-- The claim's formula `clamp(round((scrollOffset + containerLeftInset) /
stepWidth), 0, n - 1)` in real arithmetic, `round` the nearest integer with
halves rounded up. -/
def specStartIndex (gap containerLeftInset scrollOffset : ℚ) (cards : List Card) : ℤ :=
  let stepWidth := specStepWidth gap cards
  let adjustedOffset := scrollOffset + containerLeftInset
  max 0 (min (round (adjustedOffset / stepWidth)) ((cards.length : ℤ) - 1))

/-- The step width in the words of the specification, the difference or sum
rounded to a double. -/
def Binary64.specStepWidth (gap : ℚ) (cards : List Card) : JSNum :=
  if h : 2 ≤ cards.length then
    Binary64.sub (JSNum.fin (cards[1]).offsetLeft) (JSNum.fin (cards[0]).offsetLeft)
  else
    match cards.head? with
    | some firstItem => Binary64.add (JSNum.fin firstItem.offsetWidth) (JSNum.fin gap)
    | none => JSNum.fin 0

/-- The clamp of `round(x)` into `[0, n - 1]` for an extended real `x`:
`Infinity` clamps to `n - 1`, `-Infinity` to `0`. -/
def specClampRound (n : Nat) : JSNum → ℤ
  | JSNum.fin x => max 0 (min (round x) ((n : ℤ) - 1))
  | JSNum.posInf => max 0 ((n : ℤ) - 1)
  | JSNum.negInf => 0
  | JSNum.nan => 0

/-- The start-aligned active index in the words of the specification, with the
sum and the quotient each rounded to a double:
`clamp(round(fl(fl(scrollOffset + containerLeftInset) / stepWidth)), 0, n - 1)`. -/
def Binary64.specStartIndex (gap containerLeftInset scrollOffset : ℚ) (cards : List Card) : ℤ :=
  let stepWidth := Binary64.specStepWidth gap cards
  let adjustedOffset := Binary64.add (JSNum.fin scrollOffset) (JSNum.fin containerLeftInset)
  specClampRound cards.length (Binary64.div adjustedOffset stepWidth)

/-- A start-aligned carousel with left padding 100 whose three cards of width
80 sit at 100, 200 and 300 (step 100). -/
def halfStepEnv : Env := ⟨true, 20, false, 100⟩

/-- The page state of the half-step example, scrolled to `50 - 2 ^ (-47)`. -/
def halfStepDom : Dom :=
  ⟨50 - 1 / 140737488355328, 400, [⟨100, 80, false⟩, ⟨200, 80, false⟩, ⟨300, 80, false⟩], []⟩

/-! ## Theorems -/

theorem closestLoop_inv (vc : ℚ) (cards : List Card) :
    ∀ (rest : List Card) (i : Nat) (st : JSNum × Nat),
      cards.drop i = rest → i ≤ cards.length → ClosestInv vc cards i st →
      ClosestInv vc cards cards.length (closestLoop vc rest i st) := by
  intro rest
  induction rest with
  | nil =>
    intro i st hdrop hi hinv
    have hlen : cards.length ≤ i := by
      simpa using (List.drop_eq_nil_iff.mp hdrop)
    have : i = cards.length := le_antisymm hi hlen
    subst this
    simpa [closestLoop] using hinv
  | cons card rest ih =>
    intro i st hdrop hi hinv
    obtain ⟨cd, a⟩ := st
    have hilt : i < cards.length := by
      by_contra h
      have : cards.drop i = [] := List.drop_eq_nil_iff.mpr (not_lt.mp h)
      rw [this] at hdrop
      exact List.noConfusion hdrop
    have hget : cards[i]? = some card := by
      have := congrArg List.head? hdrop
      simpa [List.head?_drop] using this
    have hdrop' : cards.drop (i + 1) = rest := by
      have := congrArg List.tail hdrop
      simpa [List.tail_drop] using this
    simp only [closestLoop]
    split_ifs with hlt
    · apply ih (i + 1) _ hdrop' hilt
      right
      refine ⟨card, hget, Nat.lt_succ_self i, rfl, ?_, ?_⟩
      · intro j c hj hc
        rcases Nat.lt_succ_iff_lt_or_eq.mp hj with hj' | rfl
        · rcases hinv with ⟨h0, -⟩ | ⟨ca, hca, hai, hcd, hmin, -⟩
          · omega
          · simp only at hcd hca hai
            subst hcd
            simp only [JSNum.lt, decide_eq_true_eq] at hlt
            exact le_trans (le_of_lt hlt) (hmin j c hj' hc)
        · rw [hget] at hc
          cases hc
          exact le_refl _
      · intro j c hj hc
        rcases hinv with ⟨h0, -⟩ | ⟨ca, hca, hai, hcd, hmin, -⟩
        · omega
        · simp only at hcd hca hai
          subst hcd
          simp only [JSNum.lt, decide_eq_true_eq] at hlt
          exact lt_of_lt_of_le hlt (hmin j c hj hc)
    · apply ih (i + 1) _ hdrop' hilt
      rcases hinv with ⟨h0, hst⟩ | ⟨ca, hca, hai, hcd, hmin, hfirst⟩
      · cases hst
        simp [JSNum.lt] at hlt
      · right
        simp only at hcd hca hai hfirst
        subst hcd
        simp only [JSNum.lt, decide_eq_true_eq, not_lt] at hlt
        refine ⟨ca, hca, Nat.lt_succ_of_lt hai, rfl, ?_, hfirst⟩
        intro j c hj hc
        rcases Nat.lt_succ_iff_lt_or_eq.mp hj with hj' | rfl
        · exact hmin j c hj' hc
        · rw [hget] at hc
          cases hc
          exact hlt

theorem cardAt_natCast (cards : List Card) (k : Nat) :
    cardAt cards (JSNum.fin (k : ℚ)) = cards[k]? := by
  simp [cardAt]

theorem centerIndex_spec (s w : ℚ) (cards : List Card) (hne : cards ≠ []) :
    ∃ ck, cards[centerIndex s w cards]? = some ck ∧
      (∀ (j : Nat) (c : Card), cards[j]? = some c → centerDistance s w ck ≤ centerDistance s w c) ∧
      (∀ (j : Nat) (c : Card), j < centerIndex s w cards → cards[j]? = some c →
        centerDistance s w ck < centerDistance s w c) := by
  have h := closestLoop_inv (s + w / 2) cards cards 0 (JSNum.posInf, 0) rfl
    (Nat.zero_le _) (Or.inl ⟨rfl, rfl⟩)
  rcases h with ⟨h0, -⟩ | ⟨ca, hca, -, -, hmin, hfirst⟩
  · exact absurd (List.length_eq_zero.mp h0) hne
  · refine ⟨ca, hca, ?_, ?_⟩
    · intro j c hc
      have hj : j < cards.length := by
        by_contra hcon
        rw [List.getElem?_eq_none (not_lt.mp hcon)] at hc
        exact Option.noConfusion hc
      exact hmin j c hj hc
    · intro j c hj hc
      exact hfirst j c hj hc

theorem centers_strictMono (cards : List Card)
    (hpos : ∀ c ∈ cards, 0 < c.offsetWidth)
    (hlay : ∀ (j : Nat) (c c' : Card), cards[j]? = some c → cards[j + 1]? = some c' →
      c.offsetLeft + c.offsetWidth ≤ c'.offsetLeft) :
    ∀ (k j : Nat) (cj ck : Card), j < k → cards[j]? = some cj → cards[k]? = some ck →
      cj.offsetLeft + cj.offsetWidth / 2 < ck.offsetLeft + ck.offsetWidth / 2 := by
  intro k
  induction k with
  | zero => intro j cj ck hjk; omega
  | succ k ih =>
    intro j cj ck hjk hcj hck
    have hklt : k < cards.length := by
      by_contra hcon
      rw [List.getElem?_eq_none (by omega)] at hck
      exact Option.noConfusion hck
    have hk : cards[k]? = some cards[k] := List.getElem?_eq_getElem hklt
    have hstep := hlay k cards[k] ck hk hck
    have hwk : 0 < (cards[k]).offsetWidth := hpos _ (List.getElem_mem hklt)
    have hwk1 : 0 < ck.offsetWidth := hpos _ (List.getElem?_mem hck)
    rcases Nat.lt_succ_iff_lt_or_eq.mp hjk with hlt | rfl
    · have := ih j cj cards[k] hlt hcj hk
      linarith
    · rw [hk] at hcj
      cases hcj
      linarith

/-- C4: in a center-aligned carousel whose cards have positive widths and are
laid out left to right without overlap, scrolling to the offset `scrollToCard`
computes for an in-range index `i`, namely
`offsetLeft_i - (containerWidth - offsetWidth_i) / 2`, makes `updateActiveState`
compute the active index `i`. -/
theorem center_aligned_seek_idempotent (e : Env) (d : Dom)
    (hc : e.isCenterAligned = true)
    (hpos : ∀ c ∈ d.cards, 0 < c.offsetWidth)
    (hlay : ∀ (j : Nat) (c c' : Card), d.cards[j]? = some c → d.cards[j + 1]? = some c' →
      c.offsetLeft + c.offsetWidth ≤ c'.offsetLeft)
    (i : Nat) (hi : i < d.cards.length) :
    ∃ ci : Card, d.cards[i]? = some ci ∧
      scrollToCard e d (JSNum.fin (i : ℚ)) =
        some (ci.offsetLeft - (d.offsetWidth - ci.offsetWidth) / 2) ∧
      activeIndex e { d with scrollLeft := ci.offsetLeft - (d.offsetWidth - ci.offsetWidth) / 2 } =
        some (JSNum.fin (i : ℚ)) := by
  have hci : d.cards[i]? = some d.cards[i] := List.getElem?_eq_getElem hi
  refine ⟨d.cards[i], hci, ?_, ?_⟩
  · simp [scrollToCard, cardAt_natCast, hci, hc]
  · have hne : d.cards ≠ [] := by
      intro h
      rw [h] at hi
      exact Nat.not_lt_zero _ hi
    set t := (d.cards[i]).offsetLeft - (d.offsetWidth - (d.cards[i]).offsetWidth) / 2 with ht
    obtain ⟨ck, hk, hmin, -⟩ := centerIndex_spec t d.offsetWidth d.cards hne
    have h0 : centerDistance t d.offsetWidth d.cards[i] = 0 := by
      simp only [centerDistance, ht]
      rw [abs_eq_zero]
      ring
    have hle := hmin i d.cards[i] hci
    rw [h0] at hle
    have hck0 : centerDistance t d.offsetWidth ck = 0 :=
      le_antisymm hle (abs_nonneg _)
    have hceq : ck.offsetLeft + ck.offsetWidth / 2 =
        (d.cards[i]).offsetLeft + (d.cards[i]).offsetWidth / 2 := by
      simp only [centerDistance, abs_eq_zero] at hck0 h0
      linarith
    have hmono := centers_strictMono d.cards hpos hlay
    have hki : centerIndex t d.offsetWidth d.cards = i := by
      rcases lt_trichotomy (centerIndex t d.offsetWidth d.cards) i with h | h | h
      · exact absurd hceq (ne_of_lt (hmono _ _ _ _ h hk hci))
      · exact h
      · exact absurd hceq.symm (ne_of_lt (hmono _ _ _ _ h hci hk))
    simp [activeIndex, hc, hki]

/-- Witness for C4 on the three-card example, index 1. -/
theorem center_aligned_seek_idempotent_witness :
    ∃ ci : Card, seekDom.cards[1]? = some ci ∧
      scrollToCard seekEnv seekDom (JSNum.fin ((1 : Nat) : ℚ)) =
        some (ci.offsetLeft - (seekDom.offsetWidth - ci.offsetWidth) / 2) ∧
      activeIndex seekEnv
        { seekDom with scrollLeft := ci.offsetLeft - (seekDom.offsetWidth - ci.offsetWidth) / 2 } =
        some (JSNum.fin ((1 : Nat) : ℚ)) :=
  center_aligned_seek_idempotent seekEnv seekDom rfl
    (by
      intro c hc
      simp [seekDom] at hc
      rcases hc with rfl | rfl | rfl <;> norm_num)
    (by
      intro j c c' hj hj'
      match j with
      | 0 => simp [seekDom] at hj hj'; subst hj; subst hj'; norm_num
      | 1 => simp [seekDom] at hj hj'; subst hj; subst hj'; norm_num
      | (j + 2) => simp [seekDom] at hj')
    1 (by simp [seekDom])

/-- C5 (failing input): three evenly spaced cards (positions `60 + k * 100`),
left inset 60: `scrollToCard(0)` scrolls to offset 0 (line 109 subtracts the
padding), and from offset 0 `updateActiveState` adds the padding (line 75,
whose comment says it is subtracted) and computes `Math.round(60 / 100) = 1`,
not 0. -/
theorem start_aligned_seek_not_idempotent :
    (∀ (k : Nat) (c : Card), (paddedDom 0).cards[k]? = some c →
      c.offsetLeft = 60 + (k : ℚ) * 100) ∧
    (0 : ℚ) ≤ paddedEnv.containerPaddingLeft ∧
    scrollToCard paddedEnv (paddedDom 0) (JSNum.fin ((0 : Nat) : ℚ)) = some 0 ∧
    activeIndex paddedEnv { paddedDom 0 with scrollLeft := 0 } = some (JSNum.fin 1) ∧
    JSNum.fin 1 ≠ JSNum.fin ((0 : Nat) : ℚ) := by
  refine ⟨?_, ?_, ?_, ?_, ?_⟩
  · intro k c hk
    match k with
    | 0 => simp [paddedDom] at hk; subst hk; norm_num
    | 1 => simp [paddedDom] at hk; subst hk; norm_num
    | 2 => simp [paddedDom] at hk; subst hk; norm_num
    | (k + 3) => simp [paddedDom] at hk
  · simp [paddedEnv]
  · simp [scrollToCard, cardAt, paddedEnv, paddedDom]
  · simp [activeIndex, roundedStep, cardWidth, paddedEnv, paddedDom, JSNum.div, JSNum.round,
      JSNum.min, JSNum.max]
    norm_num [Int.floor_eq_iff]
  · simp

theorem activeIndex_start_aligned (e : Env) (d : Dom)
    (hs : e.isCenterAligned = false) (hne : d.cards ≠ []) :
    activeIndex e d = some (JSNum.max (JSNum.fin 0)
      (JSNum.min (roundedStep e d) (JSNum.fin ((d.cards.length : ℚ) - 1)))) := by
  obtain ⟨sl, ow, cards, dots⟩ := d
  cases cards with
  | nil => exact absurd rfl hne
  | cons c rest => simp [activeIndex, hs]

/-- C3 (failing input): two cards at the same `offsetLeft`, scroll offset 0 and
left padding 0 give the step width 0 and the quotient `0 / 0`; the active index
`updateActiveState` computes and the index the step function passes to
`scrollToCard` are `NaN`, which is not in `[0, 1]`, and no scroll is issued. -/
theorem zero_step_width_index_nan :
    cardWidth stackedEnv.gap stackedDom.cards = 0 ∧
    activeIndex stackedEnv stackedDom = some JSNum.nan ∧
    stepTarget stackedEnv stackedDom 1 = some JSNum.nan ∧
    stepTarget stackedEnv stackedDom (-1) = some JSNum.nan ∧
    ¬ JSNum.InRange JSNum.nan stackedDom.cards.length ∧
    exportedStep stackedEnv stackedDom 1 = none := by
  refine ⟨?_, ?_, ?_, ?_, ?_, ?_⟩
  · simp [cardWidth, stackedDom]
  · simp [activeIndex, roundedStep, cardWidth, stackedEnv, stackedDom, JSNum.div, JSNum.round,
      JSNum.min, JSNum.max]
  · simp [stepTarget, stepCardWidth, stackedEnv, stackedDom, JSNum.div, JSNum.round,
      JSNum.min, JSNum.max, JSNum.addFin]
  · simp [stepTarget, stepCardWidth, stackedEnv, stackedDom, JSNum.div, JSNum.round,
      JSNum.min, JSNum.max, JSNum.addFin]
  · rintro ⟨k, -, hk⟩
    exact JSNum.noConfusion hk
  · simp [exportedStep, stepTarget, stepCardWidth, stackedEnv, stackedDom, JSNum.div,
      JSNum.round, JSNum.min, JSNum.max, JSNum.addFin, scrollToCard, cardAt]

/-- C6 (failing input): with cards at 0 and 100 and scroll offset 300 the
rounded quotient is 3; `updateActiveState` clamps it to the active index 1,
while the step function adds the direction `-1` to the unclamped 3 and passes
`clamp(2) = 1` to `scrollToCard`, not `clamp(1 - 1) = 0`. -/
theorem step_skips_clamp_before_adding :
    activeIndex wideEnv wideDom = some (JSNum.fin 1) ∧
    stepTarget wideEnv wideDom (-1) = some (JSNum.fin 1) ∧
    JSNum.max (JSNum.fin 0) (JSNum.min (JSNum.addFin (JSNum.fin 1) (-1))
      (JSNum.fin ((wideDom.cards.length : ℚ) - 1))) = JSNum.fin 0 := by
  refine ⟨?_, ?_, ?_⟩
  · simp [activeIndex, roundedStep, cardWidth, wideEnv, wideDom, JSNum.div, JSNum.round,
      JSNum.min, JSNum.max]
    norm_num [Int.floor_eq_iff]
  · simp [stepTarget, stepCardWidth, wideEnv, wideDom, JSNum.div, JSNum.round,
      JSNum.min, JSNum.max, JSNum.addFin]
    norm_num [Int.floor_eq_iff]
  · simp [wideDom, JSNum.min, JSNum.max, JSNum.addFin]

theorem stepCardWidth_eq (gap : ℚ) (cards : List Card) :
    stepCardWidth gap cards = cardWidth gap cards := by
  match cards with
  | [] => rfl
  | [c0] => rfl
  | c0 :: c1 :: rest => rfl

theorem stepTarget_eq (e : Env) (d : Dom) (direction : ℤ) (hne : d.cards ≠ []) :
    stepTarget e d direction =
      some (JSNum.max (JSNum.fin 0) (JSNum.min
        (JSNum.addFin
          (if e.isCenterAligned then
            JSNum.fin (centerIndex d.scrollLeft d.offsetWidth d.cards : ℚ)
          else roundedStep e d) (direction : ℚ))
        (JSNum.fin ((d.cards.length : ℚ) - 1)))) := by
  have hlen : d.cards.length ≠ 0 := by
    intro h
    exact hne (List.length_eq_zero.mp h)
  simp only [stepTarget, hlen, if_false, stepCardWidth_eq, roundedStep]

theorem centerIndex_lt (s w : ℚ) (cards : List Card) (hne : cards ≠ []) :
    centerIndex s w cards < cards.length := by
  obtain ⟨ck, hk, -, -⟩ := centerIndex_spec s w cards hne
  by_contra hcon
  rw [List.getElem?_eq_none (not_lt.mp hcon)] at hk
  exact Option.noConfusion hk

theorem activeIndex_eq_clamp (e : Env) (d : Dom) (hne : d.cards ≠ []) :
    activeIndex e d =
      some (JSNum.max (JSNum.fin 0) (JSNum.min
        (if e.isCenterAligned then
          JSNum.fin (centerIndex d.scrollLeft d.offsetWidth d.cards : ℚ)
        else roundedStep e d)
        (JSNum.fin ((d.cards.length : ℚ) - 1)))) := by
  cases hc : e.isCenterAligned with
  | false => simpa using activeIndex_start_aligned e d hc hne
  | true =>
    have hk := centerIndex_lt d.scrollLeft d.offsetWidth d.cards hne
    have hk' : (centerIndex d.scrollLeft d.offsetWidth d.cards : ℚ) ≤
        (d.cards.length : ℚ) - 1 := by
      have : (centerIndex d.scrollLeft d.offsetWidth d.cards : ℚ) + 1 ≤
          (d.cards.length : ℚ) := by exact_mod_cast hk
      linarith
    have h0 : (0 : ℚ) ≤ (centerIndex d.scrollLeft d.offsetWidth d.cards : ℚ) :=
      Nat.cast_nonneg _
    simp [activeIndex, hc, JSNum.min, JSNum.max, hk', h0]

theorem clamp_last_saturates (x : JSNum) (m : ℚ) (hm : 0 ≤ m)
    (h : JSNum.max (JSNum.fin 0) (JSNum.min x (JSNum.fin m)) = JSNum.fin m) :
    JSNum.max (JSNum.fin 0) (JSNum.min (JSNum.addFin x 1) (JSNum.fin m)) = JSNum.fin m := by
  cases x with
  | nan => simp [JSNum.min, JSNum.max] at h
  | posInf => simpa [JSNum.addFin] using h
  | negInf => simpa [JSNum.addFin] using h
  | fin q =>
    simp only [JSNum.min, JSNum.max, JSNum.addFin, JSNum.fin.injEq] at h ⊢
    split_ifs at h ⊢ <;> linarith

theorem clamp_first_saturates (x : JSNum) (m : ℚ) (hm : 0 ≤ m)
    (h : JSNum.max (JSNum.fin 0) (JSNum.min x (JSNum.fin m)) = JSNum.fin 0) :
    JSNum.max (JSNum.fin 0) (JSNum.min (JSNum.addFin x (-1)) (JSNum.fin m)) = JSNum.fin 0 := by
  cases x with
  | nan => simp [JSNum.min, JSNum.max] at h
  | posInf => simpa [JSNum.addFin] using h
  | negInf => simpa [JSNum.addFin] using h
  | fin q =>
    simp only [JSNum.min, JSNum.max, JSNum.addFin, JSNum.fin.injEq] at h ⊢
    split_ifs at h ⊢ <;> linarith

/-- C7: in a carousel with at least one card, under either alignment: when the
active index `updateActiveState` computes is `n - 1`, the step function called
with `+1` passes `n - 1` to `scrollToCard`; when it is `0`, the step function
called with `-1` passes `0`; in both cases the call returns normally, having
scrolled to that card. -/
theorem step_saturates_at_boundaries (e : Env) (d : Dom) (hne : d.cards ≠ []) :
    (activeIndex e d = some (JSNum.fin ((d.cards.length : ℚ) - 1)) →
      stepTarget e d 1 = some (JSNum.fin ((d.cards.length : ℚ) - 1)) ∧
      ∃ left, exportedStep e d 1 = some left) ∧
    (activeIndex e d = some (JSNum.fin 0) →
      stepTarget e d (-1) = some (JSNum.fin 0) ∧
      ∃ left, exportedStep e d (-1) = some left) := by
  have hlen : 1 ≤ d.cards.length := List.length_pos.mpr hne
  have hm : (0 : ℚ) ≤ (d.cards.length : ℚ) - 1 := by
    have : (1 : ℚ) ≤ (d.cards.length : ℚ) := by exact_mod_cast hlen
    linarith
  have hcast : (d.cards.length : ℚ) - 1 = ((d.cards.length - 1 : Nat) : ℚ) := by
    rw [Nat.cast_sub hlen]; simp
  have hlast : ∃ c, cardAt d.cards (JSNum.fin ((d.cards.length : ℚ) - 1)) = some c := by
    rw [hcast, cardAt_natCast]
    exact ⟨d.cards[d.cards.length - 1], List.getElem?_eq_getElem (by omega)⟩
  have hfirst : ∃ c, cardAt d.cards (JSNum.fin 0) = some c := by
    have h0 : (0 : ℚ) = ((0 : Nat) : ℚ) := by simp
    rw [h0, cardAt_natCast]
    exact ⟨d.cards[0], List.getElem?_eq_getElem (by omega)⟩
  have hscroll : ∀ x, (∃ c, cardAt d.cards x = some c) → ∃ left, scrollToCard e d x = some left := by
    rintro x ⟨c, hc⟩
    simp only [scrollToCard, hc]
    split_ifs <;> exact ⟨_, rfl⟩
  rw [activeIndex_eq_clamp e d hne, stepTarget_eq e d 1 hne, stepTarget_eq e d (-1) hne]
  constructor
  · intro h
    have h' := clamp_last_saturates _ _ hm (Option.some.inj h)
    have h1 : ((1 : ℤ) : ℚ) = 1 := by simp
    refine ⟨by rw [h1, h'], ?_⟩
    simp only [exportedStep, stepTarget_eq e d 1 hne, h1, h']
    exact hscroll _ hlast
  · intro h
    have h' := clamp_first_saturates _ _ hm (Option.some.inj h)
    have h1 : ((-1 : ℤ) : ℚ) = -1 := by simp
    refine ⟨by rw [h1, h'], ?_⟩
    simp only [exportedStep, stepTarget_eq e d (-1) hne, h1, h']
    exact hscroll _ hfirst

/-- Witness for C7 on the two-card example: at scroll offset 340 the active
index is the last one and stepping forward stays on it; at scroll offset 0 the
active index is 0 and stepping back stays on it. -/
theorem step_saturates_at_boundaries_witness :
    (stepTarget stepEnv (stepDom 340) 1 =
        some (JSNum.fin (((stepDom 340).cards.length : ℚ) - 1)) ∧
      ∃ left, exportedStep stepEnv (stepDom 340) 1 = some left) ∧
    (stepTarget stepEnv (stepDom 0) (-1) = some (JSNum.fin 0) ∧
      ∃ left, exportedStep stepEnv (stepDom 0) (-1) = some left) :=
  ⟨(step_saturates_at_boundaries stepEnv (stepDom 340) (by simp [stepDom])).1
      (by
        simp [activeIndex, roundedStep, cardWidth, stepEnv, stepDom, JSNum.div, JSNum.round,
          JSNum.min, JSNum.max]
        norm_num [Int.floor_eq_iff]),
   (step_saturates_at_boundaries stepEnv (stepDom 0) (by simp [stepDom])).2
      (by
        simp [activeIndex, roundedStep, cardWidth, stepEnv, stepDom, JSNum.div, JSNum.round,
          JSNum.min, JSNum.max]
        norm_num [Int.floor_eq_iff])⟩

theorem settling_first (s0 : Controller) (h0 : s0.timers = []) (ev : Nat × ℚ) :
    Settling s0 (s0.scrollEvent ev) ev.1 ev.2 := by
  have hc : clearTimeout s0.isScrolling [] = [] := by
    cases s0.isScrolling <;> simp [clearTimeout]
  simp [Settling, Controller.scrollEvent, Controller.advance, Controller.onScroll, h0, hc]

theorem settling_next (s0 s : Controller) (t : Nat) (x : ℚ) (ev : Nat × ℚ)
    (hs : Settling s0 s t x) (hlt : ev.1 < t + 50) :
    Settling s0 (s.scrollEvent ev) ev.1 ev.2 := by
  obtain ⟨henv, hdom, hnow, ⟨id, hid, htm⟩, hup⟩ := hs
  have hnd : ¬ t + 50 ≤ ev.1 := by omega
  simp [Settling, Controller.scrollEvent, Controller.advance, Controller.onScroll, htm, hid,
    hnd, clearTimeout, henv, hdom, hup]

theorem settling_burst (s0 : Controller) :
    ∀ (evs : List (Nat × ℚ)) (s : Controller) (ev last : Nat × ℚ),
      Settling s0 s ev.1 ev.2 →
      List.Chain (fun a b : Nat × ℚ => a.1 ≤ b.1 ∧ b.1 < a.1 + 50) ev evs →
      (ev :: evs).getLast? = some last →
      Settling s0 (s.scrollEvents evs) last.1 last.2 := by
  intro evs
  induction evs with
  | nil =>
    intro s ev last hs _ hlast
    simp at hlast
    subst hlast
    simpa [Controller.scrollEvents] using hs
  | cons e rest ih =>
    intro s ev last hs hchain hlast
    rw [List.chain_cons] at hchain
    rw [List.getLast?_cons_cons] at hlast
    have hnext := settling_next s0 s ev.1 ev.2 e hs hchain.1.2
    have := ih (s.scrollEvent e) e last hnext hchain.2 hlast
    simpa [Controller.scrollEvents] using this

theorem settling_advance (s0 s : Controller) (t : Nat) (x : ℚ) (time : Nat)
    (hs : Settling s0 s t x) (hidle : t + 50 < time) :
    (s.advance time).updates = s0.updates ++ [(t + 50, x)] ∧
    (s.advance time).timers = [] ∧
    (s.advance time).dom = updateActiveState s0.env { s0.dom with scrollLeft := x } := by
  obtain ⟨henv, hdom, hnow, ⟨id, hid, htm⟩, hup⟩ := hs
  have hd : t + 50 ≤ time := le_of_lt hidle
  simp [Controller.advance, Controller.fire, htm, hd, henv, hdom, hup]

/-- C9: starting with no timeout pending, after a burst of one or more scroll
events each arriving less than 50 ms after the previous one, followed by an
idle period longer than 50 ms, `updateActiveState` has been run by the
listener exactly once, 50 ms after the last event, on the scroll offset the
last event left; no timeout remains pending. -/
theorem debounce_collapses_burst (s0 : Controller) (h0 : s0.timers = [])
    (ev : Nat × ℚ) (evs : List (Nat × ℚ)) (last : Nat × ℚ)
    (hburst : List.Chain (fun a b : Nat × ℚ => a.1 ≤ b.1 ∧ b.1 < a.1 + 50) ev evs)
    (hlast : (ev :: evs).getLast? = some last)
    (time : Nat) (hidle : last.1 + 50 < time) :
    ((s0.scrollEvents (ev :: evs)).advance time).updates =
      s0.updates ++ [(last.1 + 50, last.2)] ∧
    ((s0.scrollEvents (ev :: evs)).advance time).timers = [] ∧
    ((s0.scrollEvents (ev :: evs)).advance time).dom =
      updateActiveState s0.env { s0.dom with scrollLeft := last.2 } := by
  have hfirst := settling_first s0 h0 ev
  have hall := settling_burst s0 evs (s0.scrollEvent ev) ev last hfirst hburst hlast
  have hs : s0.scrollEvents (ev :: evs) = (s0.scrollEvent ev).scrollEvents evs := by
    simp [Controller.scrollEvents]
  rw [hs]
  exact settling_advance s0 _ last.1 last.2 time hall hidle

/-- Witness for C9: three events at 0, 30 and 70 ms and an idle period until
200 ms give one run, at 120 ms, on the last offset 340. -/
theorem debounce_collapses_burst_witness :
    ((idleController.scrollEvents [(0, 100), (30, 250), (70, 340)]).advance 200).updates =
      [(120, 340)] ∧
    ((idleController.scrollEvents [(0, 100), (30, 250), (70, 340)]).advance 200).timers = [] ∧
    ((idleController.scrollEvents [(0, 100), (30, 250), (70, 340)]).advance 200).dom =
      updateActiveState stepEnv (stepDom 340) :=
  debounce_collapses_burst idleController rfl (0, 100) [(30, 250), (70, 340)] (70, 340)
    (by simp) rfl 200 (by decide)

/-- C8 (failing input): constructing the services carousel on a page whose two
cards sit at the same `offsetLeft` (step width 0, scroll offset 0, padding 0)
creates two dots in item order, and the initial `updateActiveState` leaves no
card and no dot active. -/
theorem zero_step_width_nothing_active :
    (initScrollCarousel "services-scroll" "carousel-dots" ".service-card-h"
        stackedPage).dotsContainers "carousel-dots" =
      some [⟨"carousel-dot", 0, false⟩, ⟨"carousel-dot", 1, false⟩] ∧
    ((initScrollCarousel "services-scroll" "carousel-dots" ".service-card-h"
        stackedPage).containers "services-scroll").map (fun c => c.cards) =
      some [⟨0, 80, false⟩, ⟨0, 80, false⟩] := by
  constructor
  · simp [initScrollCarousel, stackedPage, makeDots, Closure.updateActiveState,
      updateActiveState, activeIndex, roundedStep, cardWidth, JSNum.div, JSNum.round,
      JSNum.min, JSNum.max, toggleCards, toggleDots, Function.update]
  · simp [initScrollCarousel, stackedPage, makeDots, Closure.updateActiveState,
      updateActiveState, activeIndex, roundedStep, cardWidth, JSNum.div, JSNum.round,
      JSNum.min, JSNum.max, toggleCards, toggleDots, Function.update]

theorem init_container_absent (containerId dotsContainerId cardSelector : String) (p : Page)
    (h : p.containers containerId = none) :
    initScrollCarousel containerId dotsContainerId cardSelector p =
      { p with console := p.console ++
          ["Carousel initialization skipped for #" ++ containerId ++
            ": Element ou cartes non trouvées."] } := by
  simp [initScrollCarousel, h]

theorem init_no_cards (containerId dotsContainerId cardSelector : String) (p : Page)
    (c : Container) (h : p.containers containerId = some c) (hc : c.cards = []) :
    initScrollCarousel containerId dotsContainerId cardSelector p =
      { p with console := p.console ++
          ["Carousel initialization skipped for #" ++ containerId ++
            ": Element ou cartes non trouvées."] } := by
  simp [initScrollCarousel, h, hc]

/-- C10 (failing input): constructing the partners carousel on a page without
the partners container changes nothing but the console, which gains one
diagnostic; in particular no property is assigned on `window`, so a later call
of the step function for `partners-scroll` is a call of `undefined` and raises
a `TypeError` instead of doing nothing.  The services carousel constructed on
the same page steps normally. -/
theorem absent_container_step_throws :
    initScrollCarousel "partners-scroll" "partners-dots" ".partner-logo" noPartnersPage =
      { noPartnersPage with console :=
          ["Carousel initialization skipped for #partners-scroll: Element ou cartes non trouvées."] } ∧
    callStep (initScrollCarousel "partners-scroll" "partners-dots" ".partner-logo"
      noPartnersPage) "partners-scroll" 1 = CallResult.typeError ∧
    callStep (initScrollCarousel "services-scroll" "carousel-dots" ".service-card-h"
      noPartnersPage) "services-scroll" 1 = CallResult.returned (some 352) := by
  have h : noPartnersPage.containers "partners-scroll" = none := by
    simp [noPartnersPage]
  rw [init_container_absent _ _ _ _ h]
  refine ⟨?_, ?_, ?_⟩
  · simp [noPartnersPage]
  · simp [callStep, noPartnersPage]
  · simp [callStep, initScrollCarousel, noPartnersPage, Closure.updateActiveState, setProperty,
      List.lookup, updateActiveState, Function.update, exportedStep, stepTarget, stepCardWidth,
      JSNum.div, JSNum.round, JSNum.min, JSNum.max, JSNum.addFin, scrollToCard, cardAt,
      activeIndex, roundedStep, cardWidth, makeDots, toggleCards, toggleDots]
    norm_num [Int.floor_eq_iff]

theorem clamp_inRange_or_nan (x : JSNum) (z : ℤ) (n : Nat) (hn : 1 ≤ n)
    (hx : x = JSNum.fin (z : ℚ) ∨ x = JSNum.posInf ∨ x = JSNum.negInf ∨ x = JSNum.nan) :
    JSNum.InRange (JSNum.max (JSNum.fin 0) (JSNum.min x (JSNum.fin ((n : ℚ) - 1)))) n ∨
    (x = JSNum.nan ∧
      JSNum.max (JSNum.fin 0) (JSNum.min x (JSNum.fin ((n : ℚ) - 1))) = JSNum.nan) := by
  have hm : (0 : ℚ) ≤ (n : ℚ) - 1 := by
    have : (1 : ℚ) ≤ (n : ℚ) := by exact_mod_cast hn
    linarith
  have hcast : (n : ℚ) - 1 = ((n - 1 : Nat) : ℚ) := by
    rw [Nat.cast_sub hn]; simp
  rcases hx with rfl | rfl | rfl | rfl
  · left
    simp only [JSNum.min, JSNum.max]
    by_cases h1 : (z : ℚ) ≤ (n : ℚ) - 1
    · by_cases h0 : (0 : ℚ) ≤ (z : ℚ)
      · refine ⟨z.toNat, ?_, ?_⟩
        · have hz0 : 0 ≤ z := by exact_mod_cast h0
          have hz1 : z ≤ (n : ℤ) - 1 := by exact_mod_cast h1
          omega
        · have hz0 : 0 ≤ z := by exact_mod_cast h0
          simp only [h1, h0, if_true]
          congr 1
          have : ((z.toNat : ℤ) : ℚ) = (z : ℚ) := by rw [Int.toNat_of_nonneg hz0]
          exact_mod_cast this.symm
      · refine ⟨0, by omega, ?_⟩
        simp [h1, h0]
    · refine ⟨n - 1, by omega, ?_⟩
      simp only [h1, if_false, hm, if_true]
      rw [hcast]
  · left
    refine ⟨n - 1, by omega, ?_⟩
    simp only [JSNum.min, JSNum.max, hm, if_true]
    rw [hcast]
  · left
    exact ⟨0, by omega, by simp [JSNum.min, JSNum.max]⟩
  · right
    exact ⟨rfl, by simp [JSNum.min, JSNum.max]⟩

theorem roundedStep_cases (e : Env) (d : Dom) :
    (∃ z : ℤ, roundedStep e d = JSNum.fin (z : ℚ)) ∨ roundedStep e d = JSNum.posInf ∨
    roundedStep e d = JSNum.negInf ∨
    (roundedStep e d = JSNum.nan ∧ cardWidth e.gap d.cards = 0 ∧
      d.scrollLeft + e.containerPaddingLeft = 0) := by
  simp only [roundedStep, JSNum.div]
  by_cases hz : cardWidth e.gap d.cards = 0
  · simp only [hz, if_true]
    by_cases hp : 0 < d.scrollLeft + e.containerPaddingLeft
    · right; left; simp [hp, JSNum.round]
    · by_cases hn : d.scrollLeft + e.containerPaddingLeft < 0
      · right; right; left; simp [hp, hn, JSNum.round]
      · right; right; right
        refine ⟨by simp [hp, hn, JSNum.round], trivial, ?_⟩
        exact le_antisymm (not_lt.mp hp) (not_lt.mp hn)
  · left
    simp only [hz, if_false, JSNum.round]
    exact ⟨_, rfl⟩

/-- With at least one card, the active index `updateActiveState` computes is
in `[0, n - 1]`, except in the start-aligned branch when the step width and
the adjusted scroll offset are both zero, where it is `NaN`. -/
theorem activeIndex_inRange_or_nan (e : Env) (d : Dom) (hne : d.cards ≠ []) :
    ∃ a, activeIndex e d = some a ∧
      (JSNum.InRange a d.cards.length ∨
        (a = JSNum.nan ∧ e.isCenterAligned = false ∧ cardWidth e.gap d.cards = 0 ∧
          d.scrollLeft + e.containerPaddingLeft = 0)) := by
  have hlen : 1 ≤ d.cards.length := List.length_pos.mpr hne
  cases hc : e.isCenterAligned with
  | true =>
    refine ⟨JSNum.fin (centerIndex d.scrollLeft d.offsetWidth d.cards : ℚ), ?_, Or.inl ?_⟩
    · simp [activeIndex, hc]
    · exact ⟨_, centerIndex_lt d.scrollLeft d.offsetWidth d.cards hne, rfl⟩
  | false =>
    refine ⟨_, activeIndex_start_aligned e d hc hne, ?_⟩
    rcases roundedStep_cases e d with ⟨z, hz⟩ | h | h | ⟨h, hw, hadj⟩
    · rcases clamp_inRange_or_nan _ z _ hlen (Or.inl hz) with hr | ⟨hnan, -⟩
      · exact Or.inl hr
      · rw [hz] at hnan; exact JSNum.noConfusion hnan
    · rcases clamp_inRange_or_nan _ 0 _ hlen (Or.inr (Or.inl h)) with hr | ⟨hnan, -⟩
      · exact Or.inl hr
      · rw [h] at hnan; exact JSNum.noConfusion hnan
    · rcases clamp_inRange_or_nan _ 0 _ hlen (Or.inr (Or.inr (Or.inl h))) with hr | ⟨hnan, -⟩
      · exact Or.inl hr
      · rw [h] at hnan; exact JSNum.noConfusion hnan
    · right
      refine ⟨?_, rfl, hw, hadj⟩
      rw [h]; simp [JSNum.min, JSNum.max]

/-- After the card loop of `updateActiveState`, the card at position `j` of
the list is active exactly when `activeIndex` is the number `index + j`. -/
theorem toggleCards_active_iff (a : JSNum) :
    ∀ (cards : List Card) (index j : Nat) (c : Card),
      (toggleCards a index cards)[j]? = some c →
      (c.active = true ↔ a = JSNum.fin ((index + j : Nat) : ℚ)) := by
  intro cards
  induction cards with
  | nil => intro index j c h; simp [toggleCards] at h
  | cons card rest ih =>
    intro index j c h
    cases j with
    | zero =>
      simp [toggleCards] at h
      subst h
      simp [eq_comm]
    | succ j =>
      simp only [toggleCards, List.getElem?_cons_succ] at h
      have := ih (index + 1) j c h
      rw [this]
      have : index + 1 + j = index + (j + 1) := by omega
      rw [this]

theorem toggleCards_length (a : JSNum) :
    ∀ (cards : List Card) (index : Nat), (toggleCards a index cards).length = cards.length := by
  intro cards
  induction cards with
  | nil => intro index; rfl
  | cons card rest ih => intro index; simp [toggleCards, ih]

/-- With center alignment the step function passes `clamp(a + direction)` to
`scrollToCard`, where `a` is the active index `updateActiveState` computes. -/
theorem stepTarget_center (e : Env) (d : Dom) (direction : ℤ)
    (hc : e.isCenterAligned = true) (hne : d.cards ≠ []) :
    ∃ a, activeIndex e d = some a ∧
      stepTarget e d direction = some (JSNum.max (JSNum.fin 0)
        (JSNum.min (JSNum.addFin a (direction : ℚ)) (JSNum.fin ((d.cards.length : ℚ) - 1)))) := by
  refine ⟨JSNum.fin (centerIndex d.scrollLeft d.offsetWidth d.cards : ℚ), ?_, ?_⟩
  · simp [activeIndex, hc]
  · rw [stepTarget_eq e d direction hne]; simp [hc]

theorem toggleDots_makeDots (a : JSNum) (dotClass : String)
    (hcls : dotClass = "dot" ∨ dotClass = "carousel-dot") :
    ∀ (cards : List Card) (index j : Nat),
      (toggleDots a index (makeDots dotClass index cards))[j]? =
        if j < cards.length then
          some ⟨dotClass, index + j, decide (JSNum.fin ((index + j : Nat) : ℚ) = a)⟩
        else none := by
  intro cards
  induction cards with
  | nil => intro index j; simp [makeDots, toggleDots]
  | cons card rest ih =>
    intro index j
    simp only [makeDots, toggleDots, hcls, if_true]
    cases j with
    | zero => simp
    | succ j =>
      simp only [List.getElem?_cons_succ, ih (index + 1) j, List.length_cons,
        Nat.add_lt_add_iff_right]
      have : index + 1 + j = index + (j + 1) := by omega
      rw [this]

theorem toggleDots_makeDots_length (a : JSNum) (dotClass : String)
    (hcls : dotClass = "dot" ∨ dotClass = "carousel-dot") :
    ∀ (cards : List Card) (index : Nat),
      (toggleDots a index (makeDots dotClass index cards)).length = cards.length := by
  intro cards
  induction cards with
  | nil => intro index; simp [makeDots, toggleDots]
  | cons card rest ih =>
    intro index
    simp only [makeDots, toggleDots, hcls, if_true, List.length_cons, ih (index + 1)]

/-- A successful construction leaves the dots container alone when it is
absent or there is a single card; otherwise it fills it with one dot per card,
in card order (`data-index` equal to the position), and the dot at position
`j` is active exactly when the inferred active index is `j`. -/
theorem init_dots (containerId dotsContainerId cardSelector : String) (p : Page)
    (c : Container) (hc : p.containers containerId = some c) (hne : c.cards ≠ []) :
    ((p.dotsContainers dotsContainerId = none ∨ c.cards.length ≤ 1) →
      (initScrollCarousel containerId dotsContainerId cardSelector p).dotsContainers =
        p.dotsContainers) ∧
    ((p.dotsContainers dotsContainerId ≠ none ∧ 1 < c.cards.length) →
      ∃ dots, (initScrollCarousel containerId dotsContainerId cardSelector p).dotsContainers
          dotsContainerId = some dots ∧
        dots.length = c.cards.length ∧
        ∀ j, j < c.cards.length → ∃ dot, dots[j]? = some dot ∧ dot.dataIndex = j) := by
  have hlen : c.cards.length ≠ 0 := fun h => hne (List.length_eq_zero.mp h)
  constructor
  · intro h
    have hd : ((p.dotsContainers dotsContainerId).isSome && decide (c.cards.length > 1)) = false := by
      rcases h with h | h
      · simp [h]
      · simp [h]
    simp [initScrollCarousel, hc, hlen, hd, Closure.updateActiveState]
  · rintro ⟨h1, h2⟩
    obtain ⟨ds, hds⟩ := Option.ne_none_iff_exists'.mp h1
    have hd : ((p.dotsContainers dotsContainerId).isSome && decide (c.cards.length > 1)) = true := by
      simp [hds, h2]
    simp only [initScrollCarousel, hc, hlen, hd, Closure.updateActiveState, updateActiveState,
      if_false, if_true, Function.update_same, Option.getD_some]
    have hcls : (if cardSelector = ".service-card-h" then "carousel-dot" else "dot") = "dot" ∨
        (if cardSelector = ".service-card-h" then "carousel-dot" else "dot") = "carousel-dot" := by
      split_ifs
      · exact Or.inr rfl
      · exact Or.inl rfl
    obtain ⟨a, ha, -⟩ := activeIndex_inRange_or_nan
      { hasDots := true, gap := if cardSelector = ".service-card-h" then 32 else 20,
        isCenterAligned := decide (containerId = "testimonials-scroll"),
        containerPaddingLeft := c.paddingLeft }
      { scrollLeft := c.scrollLeft, offsetWidth := c.offsetWidth, cards := c.cards,
        dots := makeDots (if cardSelector = ".service-card-h" then "carousel-dot" else "dot") 0
          c.cards } hne
    rw [ha]
    refine ⟨_, rfl, toggleDots_makeDots_length a _ hcls c.cards 0, ?_⟩
    intro j hj
    have hget := toggleDots_makeDots a _ hcls c.cards 0 j
    rw [if_pos hj] at hget
    exact ⟨_, hget, by simp⟩

/-! ## Theorems in double arithmetic -/

theorem roundHalfEven_of_abs_lt (q : ℚ) (m : ℤ) (h : |q - m| < 1 / 2) :
    roundHalfEven q = m := by
  rw [abs_lt] at h
  obtain ⟨h1, h2⟩ := h
  have hfl : (⌊q⌋ : ℚ) ≤ q := Int.floor_le q
  have hfu : q < (⌊q⌋ : ℚ) + 1 := Int.lt_floor_add_one q
  unfold roundHalfEven
  split_ifs with ha hb hc
  · -- fractional part below one half: floor is m
    have hlo : (m : ℚ) - 1 < (⌊q⌋ : ℚ) := by linarith
    have hhi : (⌊q⌋ : ℚ) < (m : ℚ) + 1 := by linarith
    have hlo' : m - 1 < ⌊q⌋ := by exact_mod_cast hlo
    have hhi' : ⌊q⌋ < m + 1 := by exact_mod_cast hhi
    omega
  · have hlo : (m : ℚ) - 1 < (⌊q⌋ : ℚ) + 1 := by linarith
    have hhi : (⌊q⌋ : ℚ) + 1 < (m : ℚ) + 1 := by linarith
    have hlo' : m - 1 < ⌊q⌋ + 1 := by exact_mod_cast hlo
    have hhi' : ⌊q⌋ + 1 < m + 1 := by exact_mod_cast hhi
    omega
  · exfalso
    have heq : q - (⌊q⌋ : ℚ) = 1 / 2 := le_antisymm (not_lt.mp hb) (not_lt.mp ha)
    have hlo : (m : ℚ) - 1 < (⌊q⌋ : ℚ) := by linarith
    have hhi : (⌊q⌋ : ℚ) < (m : ℚ) := by linarith
    have hlo' : m - 1 < ⌊q⌋ := by exact_mod_cast hlo
    have hhi' : ⌊q⌋ < m := by exact_mod_cast hhi
    omega
  · exfalso
    have heq : q - (⌊q⌋ : ℚ) = 1 / 2 := le_antisymm (not_lt.mp hb) (not_lt.mp ha)
    have hlo : (m : ℚ) - 1 < (⌊q⌋ : ℚ) := by linarith
    have hhi : (⌊q⌋ : ℚ) < (m : ℚ) := by linarith
    have hlo' : m - 1 < ⌊q⌋ := by exact_mod_cast hlo
    have hhi' : ⌊q⌋ < m := by exact_mod_cast hhi
    omega

theorem roundHalfEven_intCast (z : ℤ) : roundHalfEven (z : ℚ) = z :=
  roundHalfEven_of_abs_lt _ z (by simp)

namespace Binary64

theorem log_eq_of_bounds (q : ℚ) (e : ℤ) (hlo : (2 : ℚ) ^ e ≤ |q|)
    (hhi : |q| < (2 : ℚ) ^ (e + 1)) : Int.log 2 |q| = e := by
  have hpos : 0 < |q| := lt_of_lt_of_le (zpow_pos (by norm_num) e) hlo
  have h1 : e ≤ Int.log 2 |q| := by
    rw [← Int.zpow_le_iff_le_log (by norm_num) hpos]
    exact_mod_cast hlo
  have h2 : Int.log 2 |q| < e + 1 := by
    rw [← Int.lt_zpow_iff_log_lt (by norm_num) hpos]
    exact_mod_cast hhi
  omega

/-- The double nearest to `q`, from its binade `2 ^ e ≤ |q| < 2 ^ (e + 1)` and
the integer `m` nearest to `q / 2 ^ (e - 52)` (no tie, no overflow). -/
theorem ofReal_eq (q : ℚ) (e m : ℤ) (he : -1022 ≤ e) (hlo : (2 : ℚ) ^ e ≤ |q|)
    (hhi : |q| < (2 : ℚ) ^ (e + 1)) (hm : |q / (2 : ℚ) ^ (e - 52) - m| < 1 / 2)
    (hfin : |(m : ℚ) * (2 : ℚ) ^ (e - 52)| < (2 : ℚ) ^ (1024 : ℤ)) :
    ofReal q = JSNum.fin ((m : ℚ) * (2 : ℚ) ^ (e - 52)) := by
  have hpos : 0 < |q| := lt_of_lt_of_le (zpow_pos (by norm_num) e) hlo
  have hq : q ≠ 0 := abs_pos.mp hpos
  have hlog := log_eq_of_bounds q e hlo hhi
  have hmax : max e (-1022) = e := max_eq_left he
  simp only [ofReal, hq, if_false, hlog, hmax, roundHalfEven_of_abs_lt _ m hm,
    not_le.mpr hfin]

/-- An integer below `2 ^ 53` in magnitude is a double. -/
theorem ofReal_intCast (z : ℤ) (hz : |z| < 2 ^ 53) : ofReal (z : ℚ) = JSNum.fin (z : ℚ) := by
  by_cases h0 : z = 0
  · subst h0; simp [ofReal]
  have hzq : (z : ℚ) ≠ 0 := by exact_mod_cast h0
  have hpos : 0 < |(z : ℚ)| := abs_pos.mpr hzq
  have hone : (1 : ℚ) ≤ |(z : ℚ)| := by
    have : (1 : ℤ) ≤ |z| := Int.one_le_abs h0
    exact_mod_cast this
  have hlt : |(z : ℚ)| < (2 : ℚ) ^ (53 : ℤ) := by
    have : ((|z| : ℤ) : ℚ) < ((2 ^ 53 : ℤ) : ℚ) := by exact_mod_cast hz
    rw [Int.cast_abs] at this
    calc |(z : ℚ)| < ((2 ^ 53 : ℤ) : ℚ) := this
      _ = (2 : ℚ) ^ (53 : ℤ) := by norm_num
  have hl0 : 0 ≤ Int.log 2 |(z : ℚ)| := by
    rw [← Int.zpow_le_iff_le_log (by norm_num) hpos]
    simpa using hone
  have hl1 : Int.log 2 |(z : ℚ)| < 53 := by
    rw [← Int.lt_zpow_iff_log_lt (by norm_num) hpos]
    exact_mod_cast hlt
  set e := Int.log 2 |(z : ℚ)| with he
  have hmax : max e (-1022) = e := max_eq_left (by omega)
  obtain ⟨k, hk⟩ : ∃ k : ℕ, (52 - e) = (k : ℤ) := ⟨(52 - e).toNat, by omega⟩
  have hulp : (2 : ℚ) ^ (e - 52) = ((2 : ℚ) ^ k)⁻¹ := by
    have : e - 52 = -(k : ℤ) := by omega
    rw [this, zpow_neg, zpow_natCast]
  have hquot : (z : ℚ) / (2 : ℚ) ^ (e - 52) = ((z * 2 ^ k : ℤ) : ℚ) := by
    rw [hulp]; push_cast; field_simp
  have hr : ((z * 2 ^ k : ℤ) : ℚ) * (2 : ℚ) ^ (e - 52) = (z : ℚ) := by
    rw [hulp]; push_cast; field_simp
  have hnov : ¬ (2 : ℚ) ^ (1024 : ℤ) ≤ |(z : ℚ)| := by
    rw [not_le]
    refine lt_trans hlt ?_
    norm_num
  simp only [ofReal, hzq, if_false, ← he, hmax, hquot, roundHalfEven_intCast, hr, hnov]

end Binary64

theorem jsLt_self (a : JSNum) : JSNum.lt a a = false := by
  cases a <;> simp [JSNum.lt]

theorem jsLt_chain {a b c : JSNum} (hab : JSNum.lt a b = true) (hbc : JSNum.lt b c = true) :
    JSNum.lt a c = true := by
  cases a <;> cases b <;> cases c <;> simp [JSNum.lt] at hab hbc ⊢
  exact hab.trans hbc

theorem jsLt_posInf_of_lt {a b : JSNum} (hab : JSNum.lt a b = true) :
    JSNum.lt a JSNum.posInf = true := by
  cases a <;> cases b <;> simp [JSNum.lt] at hab ⊢

theorem jsLt_false_of_not_lt_posInf {a : JSNum} (b : JSNum)
    (ha : JSNum.lt a JSNum.posInf = false) : JSNum.lt a b = false := by
  cases a <;> cases b <;> simp [JSNum.lt] at ha ⊢

theorem Binary64.closestLoop_first_unbeaten (vc : JSNum) (cards : List Card) :
    ∀ (rest : List Card) (i : Nat) (st : JSNum × Nat),
      cards.drop i = rest → i ≤ cards.length → Binary64.ClosestInv vc cards i st →
      Binary64.ClosestInv vc cards cards.length (Binary64.closestLoop vc rest i st) := by
  intro rest
  induction rest with
  | nil =>
    intro i st hdrop hi hinv
    have hlen : cards.length ≤ i := by
      simpa using (List.drop_eq_nil_iff.mp hdrop)
    have : i = cards.length := le_antisymm hi hlen
    subst this
    simpa [Binary64.closestLoop] using hinv
  | cons card rest ih =>
    intro i st hdrop hi hinv
    obtain ⟨cd, a⟩ := st
    have hilt : i < cards.length := by
      by_contra h
      have : cards.drop i = [] := List.drop_eq_nil_iff.mpr (not_lt.mp h)
      rw [this] at hdrop
      exact List.noConfusion hdrop
    have hget : cards[i]? = some card := by
      have := congrArg List.head? hdrop
      simpa [List.head?_drop] using this
    have hdrop' : cards.drop (i + 1) = rest := by
      have := congrArg List.tail hdrop
      simpa [List.tail_drop] using this
    simp only [Binary64.closestLoop]
    split_ifs with hlt
    · apply ih (i + 1) _ hdrop' hilt
      right
      refine ⟨card, hget, Nat.lt_succ_self i, rfl, jsLt_posInf_of_lt hlt, ?_, ?_⟩
      · intro j c hj hc
        rcases Nat.lt_succ_iff_lt_or_eq.mp hj with hj' | rfl
        · rcases hinv with ⟨-, hnone⟩ | ⟨ca, -, -, hcd, -, hmin, -⟩
          · exact jsLt_false_of_not_lt_posInf _ (hnone j c hj' hc)
          · simp only at hcd hmin
            by_contra hcon
            have h1 : JSNum.lt (Binary64.distance vc c) (Binary64.distance vc card) = true := by
              simpa using hcon
            have h2 := jsLt_chain h1 hlt
            rw [hmin j c hj' hc] at h2
            exact Bool.noConfusion h2
        · rw [hget] at hc
          cases hc
          exact jsLt_self _
      · intro j c hj hc heq
        simp only at heq
        rcases hinv with ⟨-, hnone⟩ | ⟨ca, -, -, hcd, -, hmin, -⟩
        · have h1 := hnone j c hj hc
          rw [heq, jsLt_posInf_of_lt hlt] at h1
          exact Bool.noConfusion h1
        · simp only at hmin
          have h1 := hmin j c hj hc
          rw [heq, hlt] at h1
          exact Bool.noConfusion h1
    · apply ih (i + 1) _ hdrop' hilt
      have hnlt : JSNum.lt (Binary64.distance vc card) cd = false := by
        simpa using hlt
      rcases hinv with ⟨hst, hnone⟩ | ⟨ca, hca, hai, hcd, hfin, hmin, hfirst⟩
      · left
        refine ⟨hst, ?_⟩
        intro j c hj hc
        rcases Nat.lt_succ_iff_lt_or_eq.mp hj with hj' | rfl
        · exact hnone j c hj' hc
        · rw [hget] at hc
          cases hc
          have : cd = JSNum.posInf := congrArg Prod.fst hst
          rw [this] at hnlt
          exact hnlt
      · right
        refine ⟨ca, hca, Nat.lt_succ_of_lt hai, hcd, hfin, ?_, hfirst⟩
        intro j c hj hc
        rcases Nat.lt_succ_iff_lt_or_eq.mp hj with hj' | rfl
        · exact hmin j c hj' hc
        · rw [hget] at hc
          cases hc
          exact hnlt

theorem Binary64.centerIndex_unbeaten (s w : ℚ) (cards : List Card) (hne : cards ≠ []) :
    ∃ ck : Card, cards[Binary64.centerIndex s w cards]? = some ck ∧
      (∀ (j : Nat) (c : Card), cards[j]? = some c →
        JSNum.lt (Binary64.distance (Binary64.viewportCenter s w) c)
          (Binary64.distance (Binary64.viewportCenter s w) ck) = false) ∧
      (∀ (j : Nat) (c : Card), j < Binary64.centerIndex s w cards → cards[j]? = some c →
        Binary64.distance (Binary64.viewportCenter s w) c ≠
          Binary64.distance (Binary64.viewportCenter s w) ck) := by
  have h := Binary64.closestLoop_first_unbeaten (Binary64.viewportCenter s w) cards cards 0
    (JSNum.posInf, 0) rfl (Nat.zero_le _) (Or.inl ⟨rfl, fun j c hj _ => absurd hj (Nat.not_lt_zero j)⟩)
  have hbound : ∀ (j : Nat) (c : Card), cards[j]? = some c → j < cards.length := by
    intro j c hc
    by_contra hcon
    rw [List.getElem?_eq_none (not_lt.mp hcon)] at hc
    exact Option.noConfusion hc
  have hpos : 0 < cards.length := List.length_pos.mpr hne
  rcases h with ⟨hst, hnone⟩ | ⟨ca, hca, -, hcd, -, hmin, hfirst⟩
  · have hk : Binary64.centerIndex s w cards = 0 := congrArg Prod.snd hst
    refine ⟨cards[0], ?_, ?_, ?_⟩
    · rw [hk]; exact List.getElem?_eq_getElem hpos
    · intro j c hc
      exact jsLt_false_of_not_lt_posInf _ (hnone j c (hbound j c hc) hc)
    · intro j c hj
      rw [hk] at hj
      exact absurd hj (Nat.not_lt_zero j)
  · refine ⟨ca, hca, ?_, ?_⟩
    · intro j c hc
      have := hmin j c (hbound j c hc) hc
      rw [hcd] at this
      exact this
    · intro j c hj hc
      have := hfirst j c hj hc
      rw [hcd] at this
      exact this

theorem Binary64.ofReal_of_eq_int (q : ℚ) (z : ℤ) (hq : q = (z : ℚ)) (hz : |z| < 2 ^ 53) :
    Binary64.ofReal q = JSNum.fin q := by
  rw [hq]; exact Binary64.ofReal_intCast z hz

theorem Binary64.div_two_of_even (z : ℤ) (hz : |z| < 2 ^ 53) :
    Binary64.div (JSNum.fin ((2 * z : ℤ) : ℚ)) (JSNum.fin 2) = JSNum.fin (z : ℚ) := by
  have h2 : ¬ (2 : ℚ) = 0 := by norm_num
  have hq : (((2 * z : ℤ) : ℚ)) / 2 = (z : ℚ) := by push_cast; ring
  simp only [Binary64.div, h2, if_false, hq, Binary64.ofReal_intCast z hz]

theorem Binary64.viewportCenter_rounding :
    Binary64.viewportCenter (50 + 1 / 140737488355328) 300 = JSNum.fin 200 := by
  have h1 : Binary64.div (JSNum.fin 300) (JSNum.fin 2) = JSNum.fin 150 := by
    have := Binary64.div_two_of_even 150 (by norm_num)
    norm_num at this
    exact this
  have h2 : Binary64.ofReal (50 + 1 / 140737488355328 + 150) =
      JSNum.fin (((7036874417766400 : ℤ) : ℚ) * (2 : ℚ) ^ ((7 : ℤ) - 52)) :=
    Binary64.ofReal_eq _ 7 7036874417766400 (by norm_num)
      (by rw [abs_of_pos (by norm_num)]; norm_num)
      (by rw [abs_of_pos (by norm_num)]; norm_num)
      (by rw [abs_lt]; constructor <;> norm_num)
      (by rw [abs_of_pos (by norm_num)]; norm_num)
  rw [Binary64.viewportCenter, h1, Binary64.add, h2]
  norm_num

theorem Binary64.distance_int (v l h : ℤ) (active : Bool) (hh : |h| < 2 ^ 53)
    (hc : |l + h| < 2 ^ 53) (hd : |l + h - v| < 2 ^ 53) :
    Binary64.distance (JSNum.fin (v : ℚ)) ⟨(l : ℚ), ((2 * h : ℤ) : ℚ), active⟩ =
      JSNum.fin ((|l + h - v| : ℤ) : ℚ) := by
  have h1 : Binary64.ofReal ((l : ℚ) + (h : ℚ)) = JSNum.fin ((l : ℚ) + (h : ℚ)) :=
    Binary64.ofReal_of_eq_int _ (l + h) (by push_cast; ring) hc
  have h2 : Binary64.ofReal ((l : ℚ) + (h : ℚ) - (v : ℚ)) =
      JSNum.fin ((l : ℚ) + (h : ℚ) - (v : ℚ)) :=
    Binary64.ofReal_of_eq_int _ (l + h - v) (by push_cast; ring) hd
  simp only [Binary64.distance, Binary64.div_two_of_even h hh, Binary64.add, h1, Binary64.sub,
    h2, Binary64.abs]
  push_cast
  rfl

/-- C1 (counterexample): two cards of width 200 at 0 and 200, container width
300, scroll offset `50 + 2 ^ (-47)`.  The sum `scrollLeft + offsetWidth / 2`
rounds to the double 200, so both computed distances are 100 and the code
keeps index 0, while card 1 is strictly nearer to the viewport center
`200 + 2 ^ (-47)` than card 0. -/
theorem center_aligned_nearest_fails_in_doubles :
    Binary64.activeIndex roundingEnv roundingDom = some (JSNum.fin ((0 : Nat) : ℚ)) ∧
    centerDistance roundingDom.scrollLeft roundingDom.offsetWidth ⟨200, 200, false⟩ <
      centerDistance roundingDom.scrollLeft roundingDom.offsetWidth ⟨0, 200, false⟩ := by
  constructor
  · have hvc := Binary64.viewportCenter_rounding
    have hd0 : Binary64.distance (JSNum.fin 200) ⟨0, 200, false⟩ = JSNum.fin 100 := by
      have := Binary64.distance_int 200 0 100 false (by norm_num) (by norm_num) (by norm_num)
      norm_num at this
      exact this
    have hd1 : Binary64.distance (JSNum.fin 200) ⟨200, 200, false⟩ = JSNum.fin 100 := by
      have := Binary64.distance_int 200 200 100 false (by norm_num) (by norm_num) (by norm_num)
      norm_num at this
      exact this
    simp only [Binary64.activeIndex, roundingEnv, roundingDom, if_true, Binary64.centerIndex]
    rw [hvc]
    simp [Binary64.closestLoop, hd0, hd1, JSNum.lt]
  · simp only [centerDistance, roundingDom]
    rw [abs_of_pos (by norm_num), abs_of_neg (by norm_num)]
    norm_num

theorem Binary64.cardWidth_eq_spec (gap : ℚ) (cards : List Card) :
    Binary64.cardWidth gap cards = Binary64.specStepWidth gap cards := by
  match cards with
  | [] => simp [Binary64.cardWidth, Binary64.specStepWidth]
  | [c0] => simp [Binary64.cardWidth, Binary64.specStepWidth]
  | c0 :: c1 :: rest => simp [Binary64.cardWidth, Binary64.specStepWidth]

theorem Binary64.ofReal_ne_nan (q : ℚ) : Binary64.ofReal q ≠ JSNum.nan := by
  by_cases h : q = 0
  · simp [Binary64.ofReal, h]
  · simp only [Binary64.ofReal, h, if_false]
    split_ifs <;> simp

theorem Binary64.add_fin_ne_nan (a b : ℚ) :
    Binary64.add (JSNum.fin a) (JSNum.fin b) ≠ JSNum.nan := by
  simp only [Binary64.add]
  exact Binary64.ofReal_ne_nan _

theorem Binary64.div_fin_ne_nan (x : JSNum) (s : ℚ) (hx : x ≠ JSNum.nan) (hs : s ≠ 0) :
    Binary64.div x (JSNum.fin s) ≠ JSNum.nan := by
  cases x with
  | nan => exact absurd rfl hx
  | fin a =>
    simp only [Binary64.div, hs, if_false]
    exact Binary64.ofReal_ne_nan _
  | posInf =>
    simp only [Binary64.div]
    split_ifs <;> simp
  | negInf =>
    simp only [Binary64.div]
    split_ifs <;> simp

theorem clamp_round_eq_spec (n : Nat) (hn : 1 ≤ n) (x : JSNum) (hx : x ≠ JSNum.nan) :
    JSNum.max (JSNum.fin 0) (JSNum.min (JSNum.round x) (JSNum.fin ((n : ℚ) - 1))) =
      JSNum.fin ((specClampRound n x : ℤ) : ℚ) := by
  have h1 : (0 : ℤ) ≤ (n : ℤ) - 1 := by omega
  have h1q : (0 : ℚ) ≤ (n : ℚ) - 1 := by
    have : (1 : ℚ) ≤ (n : ℚ) := by exact_mod_cast hn
    linarith
  cases x with
  | nan => exact absurd rfl hx
  | posInf =>
    simp only [JSNum.round, JSNum.min, JSNum.max, specClampRound, h1q, if_true,
      max_eq_right h1]
    push_cast
    rfl
  | negInf => simp [JSNum.round, JSNum.min, JSNum.max, specClampRound]
  | fin q =>
    simp only [JSNum.round, JSNum.min, JSNum.max, specClampRound]
    rw [round_eq]
    congr 1
    split_ifs with ha hb
    · rw [min_eq_left (by exact_mod_cast ha), max_eq_right (by exact_mod_cast hb)]
    · rw [min_eq_left (by exact_mod_cast ha),
        max_eq_left (by exact_mod_cast (le_of_lt (not_le.mp hb)))]
      simp
    · have hb' : (n : ℤ) - 1 ≤ ⌊q + 1 / 2⌋ := by
        have := le_of_lt (not_le.mp ha)
        exact_mod_cast this
      rw [min_eq_right hb', max_eq_right h1]
      push_cast
      rfl

theorem Binary64.activeIndex_start_clamp (e : Env) (d : Dom)
    (hs : e.isCenterAligned = false) (hne : d.cards ≠ []) :
    Binary64.activeIndex e d = some (JSNum.max (JSNum.fin 0)
      (JSNum.min (Binary64.roundedStep e d) (JSNum.fin ((d.cards.length : ℚ) - 1)))) := by
  obtain ⟨sl, ow, cards, dots⟩ := d
  cases cards with
  | nil => exact absurd rfl hne
  | cons c rest => simp [Binary64.activeIndex, hs]

/-- C2 (amended): with start alignment, at least one card and a finite
non-zero step width, the active index that `updateActiveState` computes is
`clamp(round(fl(fl(scrollLeft + containerPaddingLeft) / stepWidth)), 0, n - 1)`,
where `fl` rounds to the nearest double, `stepWidth` is
`fl(offsetLeft_1 - offsetLeft_0)` for two or more cards and
`fl(offsetWidth_0 + gap)` for one, and `round` rounds halves up. -/
theorem start_aligned_index_formula_in_doubles (e : Env) (d : Dom)
    (hs : e.isCenterAligned = false) (hne : d.cards ≠ [])
    (hstep : ∃ s : ℚ, s ≠ 0 ∧ Binary64.specStepWidth e.gap d.cards = JSNum.fin s) :
    Binary64.activeIndex e d =
      some (JSNum.fin ((Binary64.specStartIndex e.gap e.containerPaddingLeft d.scrollLeft
        d.cards : ℤ) : ℚ)) := by
  obtain ⟨s, hs0, hstepw⟩ := hstep
  have hlen : 1 ≤ d.cards.length := List.length_pos.mpr hne
  rw [Binary64.activeIndex_start_clamp e d hs hne]
  simp only [Binary64.roundedStep, Binary64.cardWidth_eq_spec, Binary64.specStartIndex, hstepw]
  rw [clamp_round_eq_spec _ hlen _
    (Binary64.div_fin_ne_nan _ s (Binary64.add_fin_ne_nan _ _) hs0)]

/-- C2 (counterexample): cards at 100, 200 and 300, left padding 100, scroll
offset `50 - 2 ^ (-47)`.  The sum `scrollLeft + containerPaddingLeft` rounds to
the double 150, the quotient is 1.5 and `Math.round` gives the index 2, while
the formula in real arithmetic gives `round(1.5 - 2 ^ (-47) / 100) = 1`. -/
theorem start_aligned_formula_fails_in_doubles :
    Binary64.activeIndex halfStepEnv halfStepDom = some (JSNum.fin 2) ∧
    specStartIndex halfStepEnv.gap halfStepEnv.containerPaddingLeft halfStepDom.scrollLeft
      halfStepDom.cards = 1 := by
  constructor
  · have hw : Binary64.sub (JSNum.fin 200) (JSNum.fin 100) = JSNum.fin 100 := by
      have := Binary64.ofReal_of_eq_int (200 - 100) 100 (by norm_num) (by norm_num)
      simp only [Binary64.sub, this]
      norm_num
    have hadj : Binary64.add (JSNum.fin (50 - 1 / 140737488355328)) (JSNum.fin 100) =
        JSNum.fin 150 := by
      have := Binary64.ofReal_eq (50 - 1 / 140737488355328 + 100) 7 5277655813324800
        (by norm_num)
        (by rw [abs_of_pos (by norm_num)]; norm_num)
        (by rw [abs_of_pos (by norm_num)]; norm_num)
        (by rw [abs_lt]; constructor <;> norm_num)
        (by rw [abs_of_pos (by norm_num)]; norm_num)
      simp only [Binary64.add, this]
      norm_num
    have hdiv : Binary64.div (JSNum.fin 150) (JSNum.fin 100) = JSNum.fin (3 / 2) := by
      have := Binary64.ofReal_eq (150 / 100) 0 6755399441055744
        (by norm_num)
        (by rw [abs_of_pos (by norm_num)]; norm_num)
        (by rw [abs_of_pos (by norm_num)]; norm_num)
        (by rw [abs_lt]; constructor <;> norm_num)
        (by rw [abs_of_pos (by norm_num)]; norm_num)
      have h0 : ¬ (100 : ℚ) = 0 := by norm_num
      simp only [Binary64.div, h0, if_false, this]
      norm_num
    have hround : JSNum.round (JSNum.fin (3 / 2)) = JSNum.fin 2 := by
      simp only [JSNum.round]
      norm_num
    simp only [Binary64.activeIndex, halfStepEnv, halfStepDom, Binary64.roundedStep,
      Binary64.cardWidth, hw, hadj, hdiv, hround]
    norm_num [JSNum.min, JSNum.max]
  · simp only [specStartIndex, specStepWidth, halfStepEnv, halfStepDom]
    norm_num [round_eq, Int.floor_eq_iff]

/-- C1 (amended): with center alignment and at least one card,
`updateActiveState` computes an index `k` of a card such that no card's
distance to the viewport center, as the code computes it in double arithmetic
(`|fl(fl(offsetLeft + fl(offsetWidth / 2)) - fl(scrollLeft + fl(containerWidth / 2)))|`),
is smaller than card `k`'s, and no card of lower index has the same computed
distance. -/
theorem center_aligned_nearest_computed (e : Env) (d : Dom)
    (hc : e.isCenterAligned = true) (hne : d.cards ≠ []) :
    ∃ (k : Nat) (ck : Card), Binary64.activeIndex e d = some (JSNum.fin (k : ℚ)) ∧
      d.cards[k]? = some ck ∧
      (∀ (j : Nat) (c : Card), d.cards[j]? = some c →
        JSNum.lt (Binary64.distance (Binary64.viewportCenter d.scrollLeft d.offsetWidth) c)
          (Binary64.distance (Binary64.viewportCenter d.scrollLeft d.offsetWidth) ck) = false) ∧
      (∀ (j : Nat) (c : Card), j < k → d.cards[j]? = some c →
        Binary64.distance (Binary64.viewportCenter d.scrollLeft d.offsetWidth) c ≠
          Binary64.distance (Binary64.viewportCenter d.scrollLeft d.offsetWidth) ck) := by
  obtain ⟨ck, hk, hmin, hfirst⟩ :=
    Binary64.centerIndex_unbeaten d.scrollLeft d.offsetWidth d.cards hne
  refine ⟨Binary64.centerIndex d.scrollLeft d.offsetWidth d.cards, ck, ?_, hk, hmin, hfirst⟩
  simp [Binary64.activeIndex, hc]

/-- Witness for the amended C1 on the tie example: both computed distances are
100 and the lower index 0 is computed. -/
theorem center_aligned_nearest_computed_witness :
    Binary64.activeIndex tieEnv tieDom = some (JSNum.fin ((0 : Nat) : ℚ)) ∧
    Binary64.distance (Binary64.viewportCenter 0 300) ⟨0, 100, false⟩ =
      Binary64.distance (Binary64.viewportCenter 0 300) ⟨200, 100, false⟩ ∧
    ∃ (k : Nat) (ck : Card), Binary64.activeIndex tieEnv tieDom = some (JSNum.fin (k : ℚ)) ∧
      tieDom.cards[k]? = some ck ∧
      (∀ (j : Nat) (c : Card), tieDom.cards[j]? = some c →
        JSNum.lt
          (Binary64.distance (Binary64.viewportCenter tieDom.scrollLeft tieDom.offsetWidth) c)
          (Binary64.distance (Binary64.viewportCenter tieDom.scrollLeft tieDom.offsetWidth) ck) =
            false) ∧
      (∀ (j : Nat) (c : Card), j < k → tieDom.cards[j]? = some c →
        Binary64.distance (Binary64.viewportCenter tieDom.scrollLeft tieDom.offsetWidth) c ≠
          Binary64.distance (Binary64.viewportCenter tieDom.scrollLeft tieDom.offsetWidth) ck) := by
  have hvc : Binary64.viewportCenter 0 300 = JSNum.fin 150 := by
    have h1 : Binary64.div (JSNum.fin 300) (JSNum.fin 2) = JSNum.fin 150 := by
      have := Binary64.div_two_of_even 150 (by norm_num)
      norm_num at this
      exact this
    have h2 := Binary64.ofReal_of_eq_int (0 + 150) 150 (by norm_num) (by norm_num)
    rw [Binary64.viewportCenter, h1, Binary64.add, h2]
    norm_num
  have hd0 : Binary64.distance (JSNum.fin 150) ⟨0, 100, false⟩ = JSNum.fin 100 := by
    have := Binary64.distance_int 150 0 50 false (by norm_num) (by norm_num) (by norm_num)
    norm_num at this
    exact this
  have hd1 : Binary64.distance (JSNum.fin 150) ⟨200, 100, false⟩ = JSNum.fin 100 := by
    have := Binary64.distance_int 150 200 50 false (by norm_num) (by norm_num) (by norm_num)
    norm_num at this
    exact this
  refine ⟨?_, ?_, center_aligned_nearest_computed tieEnv tieDom rfl (by simp [tieDom])⟩
  · simp only [Binary64.activeIndex, tieEnv, tieDom, if_true, Binary64.centerIndex]
    rw [hvc]
    simp [Binary64.closestLoop, hd0, hd1, JSNum.lt]
  · rw [hvc, hd0, hd1]

/-- Witness for the amended C2 on the specification's example: scroll offset
340 gives index 1 and scroll offset 150 gives index 0. -/
theorem start_aligned_index_formula_in_doubles_witness :
    Binary64.activeIndex stepEnv (stepDom 340) = some (JSNum.fin 1) ∧
    Binary64.activeIndex stepEnv (stepDom 150) = some (JSNum.fin 0) := by
  have hw : Binary64.sub (JSNum.fin 352) (JSNum.fin 0) = JSNum.fin 352 := by
    have := Binary64.ofReal_of_eq_int (352 - 0) 352 (by norm_num) (by norm_num)
    simp only [Binary64.sub, this]
    norm_num
  have hstep : ∀ x : ℚ, ∃ s : ℚ, s ≠ 0 ∧
      Binary64.specStepWidth stepEnv.gap (stepDom x).cards = JSNum.fin s := by
    intro x
    refine ⟨352, by norm_num, ?_⟩
    simp [Binary64.specStepWidth, stepDom, hw]
  constructor
  · rw [start_aligned_index_formula_in_doubles stepEnv (stepDom 340) rfl (by simp [stepDom])
      (hstep 340)]
    have hadj : Binary64.add (JSNum.fin 340) (JSNum.fin 0) = JSNum.fin 340 := by
      have := Binary64.ofReal_of_eq_int (340 + 0) 340 (by norm_num) (by norm_num)
      simp only [Binary64.add, this]
      norm_num
    have hdiv : Binary64.div (JSNum.fin 340) (JSNum.fin 352) =
        JSNum.fin (((8700135643783913 : ℤ) : ℚ) * (2 : ℚ) ^ ((-1 : ℤ) - 52)) := by
      have := Binary64.ofReal_eq (340 / 352) (-1) 8700135643783913
        (by norm_num)
        (by rw [abs_of_pos (by norm_num)]; norm_num)
        (by rw [abs_of_pos (by norm_num)]; norm_num)
        (by rw [abs_lt]; constructor <;> norm_num)
        (by rw [abs_of_pos (by norm_num)]; norm_num)
      have h0 : ¬ (352 : ℚ) = 0 := by norm_num
      simp only [Binary64.div, h0, if_false, this]
    simp only [Binary64.specStartIndex, Binary64.specStepWidth, stepEnv, stepDom]
    simp only [List.length_cons, List.length_nil, Nat.reduceAdd, Nat.reduceLeDiff, dite_true,
      List.getElem_cons_succ, List.getElem_cons_zero, hw, hadj, hdiv, specClampRound]
    norm_num [round_eq, Int.floor_eq_iff]
  · rw [start_aligned_index_formula_in_doubles stepEnv (stepDom 150) rfl (by simp [stepDom])
      (hstep 150)]
    have hadj : Binary64.add (JSNum.fin 150) (JSNum.fin 0) = JSNum.fin 150 := by
      have := Binary64.ofReal_of_eq_int (150 + 0) 150 (by norm_num) (by norm_num)
      simp only [Binary64.add, this]
      norm_num
    have hdiv : Binary64.div (JSNum.fin 150) (JSNum.fin 352) =
        JSNum.fin (((7676590273926982 : ℤ) : ℚ) * (2 : ℚ) ^ ((-2 : ℤ) - 52)) := by
      have := Binary64.ofReal_eq (150 / 352) (-2) 7676590273926982
        (by norm_num)
        (by rw [abs_of_pos (by norm_num)]; norm_num)
        (by rw [abs_of_pos (by norm_num)]; norm_num)
        (by rw [abs_lt]; constructor <;> norm_num)
        (by rw [abs_of_pos (by norm_num)]; norm_num)
      have h0 : ¬ (352 : ℚ) = 0 := by norm_num
      simp only [Binary64.div, h0, if_false, this]
    simp only [Binary64.specStartIndex, Binary64.specStepWidth, stepEnv, stepDom]
    simp only [List.length_cons, List.length_nil, Nat.reduceAdd, Nat.reduceLeDiff, dite_true,
      List.getElem_cons_succ, List.getElem_cons_zero, hw, hadj, hdiv, specClampRound]
    norm_num [round_eq, Int.floor_eq_iff]

/-- The spec-side clamp lands in `[0, n - 1]`. -/
theorem specClampRound_mem (n : Nat) (hn : 1 ≤ n) (x : JSNum) :
    0 ≤ specClampRound n x ∧ specClampRound n x ≤ (n : ℤ) - 1 := by
  have h1 : (0 : ℤ) ≤ (n : ℤ) - 1 := by omega
  cases x with
  | fin q =>
    simp only [specClampRound]
    exact ⟨le_max_left _ _, max_le h1 (min_le_right _ _)⟩
  | posInf =>
    simp only [specClampRound]
    exact ⟨le_max_left _ _, max_le h1 (le_refl _)⟩
  | negInf => exact ⟨le_refl _, h1⟩
  | nan => exact ⟨le_refl _, h1⟩

/-- In double arithmetic too, the stacked example of C3 yields `NaN`. -/
theorem Binary64.stacked_index_nan_in_doubles :
    Binary64.activeIndex stackedEnv stackedDom = some JSNum.nan := by
  have h0 : Binary64.ofReal 0 = JSNum.fin 0 := by simp [Binary64.ofReal]
  simp [Binary64.activeIndex, Binary64.roundedStep, Binary64.cardWidth, stackedEnv, stackedDom,
    Binary64.add, Binary64.sub, Binary64.div, h0, JSNum.round, JSNum.min, JSNum.max]

/-- In double arithmetic too, the padded example of C5 yields index 1 at the
scroll offset 0 that `scrollToCard(0)` targets. -/
theorem Binary64.padded_seek_index_in_doubles :
    Binary64.activeIndex paddedEnv (paddedDom 0) = some (JSNum.fin 1) := by
  have hw : Binary64.sub (JSNum.fin 160) (JSNum.fin 60) = JSNum.fin 100 := by
    have := Binary64.ofReal_of_eq_int (160 - 60) 100 (by norm_num) (by norm_num)
    simp only [Binary64.sub, this]
    norm_num
  have hadj : Binary64.add (JSNum.fin 0) (JSNum.fin 60) = JSNum.fin 60 := by
    have := Binary64.ofReal_of_eq_int (0 + 60) 60 (by norm_num) (by norm_num)
    simp only [Binary64.add, this]
    norm_num
  have hdiv : Binary64.div (JSNum.fin 60) (JSNum.fin 100) =
      JSNum.fin (((5404319552844595 : ℤ) : ℚ) * (2 : ℚ) ^ ((-1 : ℤ) - 52)) := by
    have := Binary64.ofReal_eq (60 / 100) (-1) 5404319552844595
      (by norm_num)
      (by rw [abs_of_pos (by norm_num)]; norm_num)
      (by rw [abs_of_pos (by norm_num)]; norm_num)
      (by rw [abs_lt]; constructor <;> norm_num)
      (by rw [abs_of_pos (by norm_num)]; norm_num)
    have h0 : ¬ (100 : ℚ) = 0 := by norm_num
    simp only [Binary64.div, h0, if_false, this]
  simp only [Binary64.activeIndex, paddedEnv, paddedDom, Binary64.roundedStep,
    Binary64.cardWidth, hw, hadj, hdiv, JSNum.round]
  norm_num [JSNum.min, JSNum.max, Int.floor_eq_iff]

end ScrollCarousel
